import Mathlib

/-!
Shallow embedding of the fleveque/logo-service core pipeline:
the data model (internal/model), the SQLite-backed metadata store and the
filesystem blob store (internal/storage), the image processor
(internal/service/image_processor.go), the GitHub and LLM providers
(internal/provider), the LLM agentic loops (internal/llm), the orchestrating
LogoService (internal/service, concatenated into github_provider.go in this
snapshot) and the admin bulk-import callback (internal/handler).

External effects (HTTP downloads, libvips resizing, the SQL engine, the OS
filesystem) are represented by explicit oracles or by executable pure state:
the metadata store is an association list mirroring the SQL statements of
sqliteLogoRepository, the blob store a list keyed by symbol and size, and
bimg resizing an oracle function from pixel count to bytes.
-/

set_option maxRecDepth 4096

namespace LogoSvc

/-! ## Go string helpers used by the code -/

/-- Uppercasing of one ASCII character, the restriction of Go
strings.ToUpper to the ASCII range (every string this code uppercases —
ticker symbols and repository file names — is ASCII). -/
def asciiUp (c : Char) : Char :=
  if 97 ≤ c.toNat ∧ c.toNat ≤ 122 then Char.ofNat (c.toNat - 32) else c

/-- Model of Go strings.ToUpper on ASCII input. -/
def goToUpper (s : String) : String := ⟨s.data.map asciiUp⟩

/-- Model of Go strings.HasPrefix. -/
def goHasPfx (s pfx : String) : Bool := pfx.data.isPrefixOf s.data

/-- Model of Go strings.HasSuffix. -/
def goHasSfx (s sfx : String) : Bool := sfx.data.isSuffixOf s.data

/-- Model of Go strings.TrimSuffix: drop the suffix when present. -/
def goTrimSfx (s sfx : String) : String :=
  if goHasSfx s sfx then ⟨s.data.take (s.data.length - sfx.data.length)⟩ else s

/-- Model of Go strings.TrimPrefix: drop the prefix when present. -/
def goTrimPfx (s pfx : String) : String :=
  if goHasPfx s pfx then ⟨s.data.drop pfx.data.length⟩ else s

/-- Helper for goContains: does sub occur as a contiguous run of chars. -/
def containsAux (sub : List Char) : List Char → Bool
  | [] => sub.isPrefixOf []
  | c :: cs => sub.isPrefixOf (c :: cs) || containsAux sub cs

/-- Model of Go strings.Contains via list infix search. -/
def goContains (s sub : String) : Bool := containsAux sub.data s.data

/-- Everything after the last slash of a path. -/
def lastSeg : List Char → List Char → List Char
  | [], acc => acc
  | c :: cs, acc => if c == '/' then lastSeg cs [] else lastSeg cs (acc ++ [c])

/-- Last slash-separated component, as Go path.Base behaves on the paths
produced by the tree listing filter (every candidate path ends in ".png",
so the trailing-slash and empty-string special cases of path.Base are never
reached). -/
def goPathBase (s : String) : String := ⟨lastSeg s.data []⟩

/-! ## internal/model: sizes, statuses, the Logo record -/

inductive LogoSize
  | xs | s | m | l | xl
deriving DecidableEq, Repr

/-- model.SizePixels. -/
def SizePixels : LogoSize → Nat
  | .xs => 16
  | .s => 32
  | .m => 64
  | .l => 128
  | .xl => 256

/-- model.AllSizes, in source order. -/
def AllSizes : List LogoSize := [.xs, .s, .m, .l, .xl]

inductive LogoStatus
  | pending | processed | failed | notFound
deriving DecidableEq, Repr

/-- model.Logo: the metadata record (timestamps and the numeric id are
omitted; the id is only used as the UPDATE key of the full-record Update,
which the core never calls). -/
structure Logo where
  symbol : String
  companyName : String
  source : String
  originalURL : String
  hasXS : Bool := false
  hasS : Bool := false
  hasM : Bool := false
  hasL : Bool := false
  hasXL : Bool := false
  status : LogoStatus
  errorMessage : Option String := none
deriving DecidableEq, Repr

/-- model.Logo.HasSize. -/
def Logo.hasSize (lg : Logo) : LogoSize → Bool
  | .xs => lg.hasXS
  | .s => lg.hasS
  | .m => lg.hasM
  | .l => lg.hasL
  | .xl => lg.hasXL

/-- Set one size flag to true, as the SQL "UPDATE logos SET has_x = 1" of
SetSizeAvailable does on a matching row. -/
def Logo.setSize (lg : Logo) : LogoSize → Logo
  | .xs => { lg with hasXS := true }
  | .s => { lg with hasS := true }
  | .m => { lg with hasM := true }
  | .l => { lg with hasL := true }
  | .xl => { lg with hasXL := true }

/-! ## internal/storage: the SQLite-backed metadata store -/

/-- Storage errors: ErrNotFound is the sentinel checked with errors.Is;
every other storage failure is an opaque wrapped error. -/
inductive StorageErr
  | errNotFound
  | other (msg : String)
deriving DecidableEq, Repr

/-- The logos table: one row per symbol (symbol TEXT NOT NULL UNIQUE,
BINARY collation, so lookups compare case-sensitively). -/
structure DB where
  logos : List Logo
deriving DecidableEq, Repr

def DB.empty : DB := ⟨[]⟩

/-- sqliteLogoRepository.GetBySymbol: SELECT * FROM logos WHERE symbol = ?,
ErrNotFound when no row matches. -/
def DB.getBySymbol (db : DB) (symbol : String) : Except StorageErr Logo :=
  match db.logos.find? (fun lg => lg.symbol == symbol) with
  | some lg => .ok lg
  | none => .error .errNotFound

/-- sqliteLogoRepository.Create: INSERT INTO logos; the UNIQUE constraint
on symbol makes the insert fail when the symbol already exists. -/
def DB.create (db : DB) (lg : Logo) : Except StorageErr DB :=
  if db.logos.any (fun l0 => l0.symbol == lg.symbol) then
    .error (.other ("creating logo: UNIQUE constraint failed: logos.symbol"))
  else
    .ok ⟨db.logos ++ [lg]⟩

/-- sqliteLogoRepository.SetSizeAvailable: UPDATE logos SET has_x = 1 WHERE
symbol = ?. An UPDATE matching zero rows succeeds without changing anything. -/
def DB.setSizeAvailable (db : DB) (symbol : String) (size : LogoSize) : DB :=
  ⟨db.logos.map (fun lg => if lg.symbol == symbol then lg.setSize size else lg)⟩

/-- sqliteLogoRepository.SetStatus: UPDATE logos SET status = ?,
error_message = ? (NULL when the supplied message is empty) WHERE symbol = ?.
An UPDATE matching zero rows succeeds without changing anything. -/
def DB.setStatus (db : DB) (symbol : String) (status : LogoStatus) (errMsg : String) : DB :=
  ⟨db.logos.map (fun lg =>
    if lg.symbol == symbol then
      { lg with status := status,
                errorMessage := if errMsg == "" then none else some errMsg }
    else lg)⟩

/-- Status of the row for a symbol, when one exists (observation helper). -/
def DB.statusOf (db : DB) (symbol : String) : Option LogoStatus :=
  match db.getBySymbol symbol with
  | .ok lg => some lg.status
  | .error _ => none

/-- Size flag of the row for a symbol; false when no row exists. -/
def DB.flagOf (db : DB) (symbol : String) (size : LogoSize) : Bool :=
  match db.getBySymbol symbol with
  | .ok lg => lg.hasSize size
  | .error _ => false

/-! ## internal/storage: the filesystem blob store -/

/-- Blob bytes are abstracted as lists of naturals. -/
abbrev Blob := List Nat

/-- storage.FileSystem: PNG files at baseDir/SYMBOL/size.png, keyed here by
the exact (case-sensitive) symbol string and the size. -/
structure FS where
  files : List ((String × LogoSize) × Blob)
deriving DecidableEq, Repr

def FS.empty : FS := ⟨[]⟩

/-- FileSystem.Write: creates or overwrites the file for (symbol, size). -/
def FS.write (fs : FS) (symbol : String) (size : LogoSize) (data : Blob) : FS :=
  ⟨((symbol, size), data) :: fs.files.filter (fun e => !(e.1 == (symbol, size)))⟩

/-- FileSystem.Read: returns the bytes, or a not-found error. -/
def FS.read (fs : FS) (symbol : String) (size : LogoSize) : Except String Blob :=
  match fs.files.find? (fun e => e.1 == (symbol, size)) with
  | some e => .ok e.2
  | none => .error "logo file not found"

/-- FileSystem.Exists. -/
def FS.exists_ (fs : FS) (symbol : String) (size : LogoSize) : Bool :=
  (fs.files.find? (fun e => e.1 == (symbol, size))).isSome

/-! ## internal/service/image_processor.go -/

/-- The string value of each LogoSize constant, used in error messages. -/
def sizeName : LogoSize → String
  | .xs => "xs"
  | .s => "s"
  | .m => "m"
  | .l => "l"
  | .xl => "xl"

/-- Oracle for resizeToSquarePNG: libvips resizing of the source bytes to a
square PNG of the given pixel count, which may fail per size. -/
abbrev Resizer := Blob → Nat → Except String Blob

/-- The loop body of ImageProcessor.ProcessAll over a list of sizes: resize,
record the per-size error or write the blob, accumulate the results map and
the error list in loop order. The modelled filesystem write cannot fail, so
the write-error branch of the source contributes nothing here. -/
def processSizes (resize : Resizer) (symbol : String) (imageData : Blob) (fs : FS) :
    List LogoSize → List (LogoSize × Bool) × List String × FS
  | [] => ([], [], fs)
  | size :: rest =>
    match resize imageData (SizePixels size) with
    | .error e =>
      let (res, errs, fs') := processSizes resize symbol imageData fs rest
      ((size, false) :: res, (sizeName size ++ ": " ++ e) :: errs, fs')
    | .ok data =>
      let fs1 := fs.write symbol size data
      let (res, errs, fs') := processSizes resize symbol imageData fs1 rest
      ((size, true) :: res, errs, fs')

/-- ImageProcessor.ProcessAll: resize to every size in AllSizes, save the
successes, and return the size-to-success map together with an aggregated
error when at least one size failed. -/
def ProcessAll (resize : Resizer) (fs : FS) (symbol : String) (imageData : Blob) :
    List (LogoSize × Bool) × FS × Option String :=
  let r := processSizes resize symbol imageData fs AllSizes
  (r.1, r.2.2,
    if r.2.1.isEmpty then none
    else some ("processing errors: " ++ String.intercalate "; " r.2.1))

/-- Hexadecimal digit test, as fmt scanning accepts for the x verb
(0-9, a-f, A-F by code point). -/
def isHexDig (c : Char) : Bool :=
  (48 ≤ c.toNat && c.toNat ≤ 57) || (97 ≤ c.toNat && c.toNat ≤ 102) ||
    (65 ≤ c.toNat && c.toNat ≤ 70)

def hexDigVal (c : Char) : Nat :=
  if 48 ≤ c.toNat && c.toNat ≤ 57 then c.toNat - 48
  else if 97 ≤ c.toNat && c.toNat ≤ 102 then c.toNat - 87
  else c.toNat - 55

/-- The whitespace table of Go package fmt (isSpace in scan.go). -/
def goFmtIsSpace (c : Char) : Bool :=
  let n := c.toNat
  (0x9 ≤ n && n ≤ 0xD) || n == 0x20 || n == 0x85 || n == 0xA0 || n == 0x1680 ||
  (0x2000 ≤ n && n ≤ 0x200A) || n == 0x2028 || n == 0x2029 || n == 0x202F ||
  n == 0x205F || n == 0x3000

/-- SkipSpace under the per-operand width budget of fmt scanning: every rune
consumed, including skipped spaces, counts against the width; the first
non-space rune is unread (its budget is restored). -/
def skipSpaceW : List Char → Nat → List Char × Nat
  | c :: cs, w + 1 => if goFmtIsSpace c then skipSpaceW cs w else (c :: cs, w + 1)
  | cs, w => (cs, w)

/-- Greedy hex-digit token scan under the remaining width budget, returning
the accumulated value, the number of digits read, and the unread rest. -/
def scanHexDigits : List Char → Nat → Nat → Nat → Nat × Nat × List Char
  | c :: cs, w + 1, acc, cnt =>
    if isHexDig c then scanHexDigits cs w (acc * 16 + hexDigVal c) (cnt + 1)
    else (acc, cnt, c :: cs)
  | cs, _, acc, cnt => (acc, cnt, cs)

/-- One percent-02-x operand of fmt.Sscanf: skip leading whitespace within
the width budget of 2, then read one or two hex digits; fail when the budget
is exhausted before any digit or when no hex digit is present. -/
def scanHexGroup (cs : List Char) : Option (Nat × List Char) :=
  let (cs1, w) := skipSpaceW cs 2
  if w == 0 then none
  else
    let (v, cnt, rest) := scanHexDigits cs1 w 0 0
    if cnt == 0 then none else some (v, rest)

/-- fmt.Sscanf with format three times percent-02-x: three hex operands in
sequence; leftover input after the third operand is not an error. -/
def sscanfHex3 (s : String) : Option (Nat × Nat × Nat) :=
  match scanHexGroup s.toList with
  | none => none
  | some (r, cs1) =>
    match scanHexGroup cs1 with
    | none => none
    | some (g, cs2) =>
      match scanHexGroup cs2 with
      | none => none
      | some (b, _) => some (r, g, b)

/-- parseHexColor: strip an optional leading hash, require length 6, then
scan three two-hex-digit components with Sscanf. -/
def parseHexColor (hex : String) : Except String (Nat × Nat × Nat) :=
  let hex := goTrimPfx hex "#"
  if hex.length ≠ 6 then
    .error ("invalid hex color: " ++ hex ++ " (expected 6 characters)")
  else
    match sscanfHex3 hex with
    | none => .error ("parsing hex color " ++ hex)
    | some rgb => .ok rgb

/-- ApplyBackground: parse the color, then run the opaque libvips flatten
(supplied as an oracle from image bytes and RGB color to image bytes). -/
def ApplyBackground (process : Blob → Nat × Nat × Nat → Except String Blob)
    (imageData : Blob) (hexColor : String) : Except String Blob :=
  match parseHexColor hexColor with
  | .error e => .error e
  | .ok rgb => process imageData rgb

/-! ## internal/provider: LogoResult, ImportStats, GitHubProvider -/

/-- provider.LogoResult. -/
structure LogoResult where
  symbol : String
  companyName : String := ""
  imageData : Blob
  source : String
  originalURL : String
deriving DecidableEq, Repr

/-- provider.ImportStats. -/
structure ImportStats where
  total : Nat := 0
  imported : Nat := 0
  skipped : Nat := 0
  failed : Nat := 0
  errors : List String := []
deriving DecidableEq, Repr

/-- One file of the GitHub git tree listing (path and type are the fields
the import filter reads). -/
structure TreeEntry where
  path : String
  type : String
deriving DecidableEq, Repr

/-- Cancellation context: the Done channel is observed to fire at the n-th
cancellation check and at every later one (n = remaining). -/
structure Ctx where
  remaining : Nat
deriving DecidableEq, Repr

/-- One select on ctx.Done: true when cancellation is observed. -/
def Ctx.check : Ctx → Bool × Ctx
  | ⟨0⟩ => (true, ⟨0⟩)
  | ⟨n + 1⟩ => (false, ⟨n⟩)

/-- The ctx.Err() value of a canceled context. -/
def ctxCanceledErr : String := "context canceled"

/-- Oracle for GitHubProvider.downloadFile / LLMProvider.downloadImage:
HTTP GET of a URL returning at most 10 MiB of body bytes or an error. -/
abbrev Downloader := String → Except String Blob

/-- The raw-content URL GetLogo fetches for a symbol in a repo. -/
def ghRawLogoURL (repo symbol : String) : String :=
  "https://raw.githubusercontent.com/" ++ repo ++ "/main/ticker_icons/" ++ symbol ++ ".png"

/-- The raw-content URL bulk import fetches for a tree entry. -/
def ghRawEntryURL (repo entryPath : String) : String :=
  "https://raw.githubusercontent.com/" ++ repo ++ "/main/" ++ entryPath

/-- The repo loop of GitHubProvider.GetLogo: first successful download wins,
download failures fall through to the next repo. -/
def ghGetLogoAux (download : Downloader) (symbol : String) : List String → Except String LogoResult
  | [] => .error ("logo for " ++ symbol ++ " not found in any GitHub repo")
  | repo :: rest =>
    let rawURL := ghRawLogoURL repo symbol
    match download rawURL with
    | .error _ => ghGetLogoAux download symbol rest
    | .ok data =>
      .ok { symbol := symbol, imageData := data,
            source := "github:" ++ repo, originalURL := rawURL }

/-- GitHubProvider.GetLogo: uppercase the symbol, then try each configured
repo in order. -/
def ghGetLogo (repos : List String) (download : Downloader) (symbol : String) :
    Except String LogoResult :=
  ghGetLogoAux download (goToUpper symbol) repos

/-- The bulk-import candidate filter: tree blobs under ticker_icons/ with
the .png extension. -/
def isCandidate (e : TreeEntry) : Bool :=
  e.type == "blob" && goHasPfx e.path "ticker_icons/" && goHasSfx e.path ".png"

/-- Symbol derivation from a candidate path: base name, strip .png,
uppercase. -/
def candidateSymbol (p : String) : String :=
  goToUpper (goTrimSfx (goPathBase p) ".png")

/-- A bulk-import callback: takes the caller state and the acquired result,
returns the new state and an error message when the callback failed. -/
abbrev ImportCb (σ : Type) := σ → LogoResult → σ × Option String

/-- The candidate loop of GitHubProvider.importFromRepo: for each filtered
entry, count it, check cancellation, download, invoke the callback, and
classify the outcome (an error containing "already exists" counts as
skipped; any other callback or download error counts as failed). -/
def importLoop {σ : Type} (download : Downloader) (cb : ImportCb σ) (repo : String) :
    List TreeEntry → Ctx → σ → ImportStats → ImportStats × Ctx × σ × Option String
  | [], ctx, st, stats => (stats, ctx, st, none)
  | e :: rest, ctx, st, stats =>
    if isCandidate e then
      let symbol := candidateSymbol e.path
      let stats1 := { stats with total := stats.total + 1 }
      let (cancelled, ctx1) := ctx.check
      if cancelled then (stats1, ctx1, st, some ctxCanceledErr)
      else
        let rawURL := ghRawEntryURL repo e.path
        match download rawURL with
        | .error err =>
          importLoop download cb repo rest ctx1 st
            { stats1 with failed := stats1.failed + 1,
                          errors := stats1.errors ++ [symbol ++ ": download failed: " ++ err] }
        | .ok data =>
          let result : LogoResult :=
            { symbol := symbol, imageData := data,
              source := "github:" ++ repo, originalURL := rawURL }
          let c := cb st result
          match c.2 with
          | some err =>
            if goContains err "already exists" then
              importLoop download cb repo rest ctx1 c.1
                { stats1 with skipped := stats1.skipped + 1 }
            else
              importLoop download cb repo rest ctx1 c.1
                { stats1 with failed := stats1.failed + 1,
                              errors := stats1.errors ++ [symbol ++ ": " ++ err] }
          | none =>
            importLoop download cb repo rest ctx1 c.1
              { stats1 with imported := stats1.imported + 1 }
    else
      importLoop download cb repo rest ctx st stats

/-- GitHubProvider.importFromRepo: list the tree (one request per repo; a
truncated listing only logs a warning and is already reflected in the oracle
result), then run the candidate loop. -/
def importFromRepo {σ : Type} (fetchTree : String → Except String (List TreeEntry))
    (download : Downloader) (cb : ImportCb σ) (repo : String) (ctx : Ctx) (st : σ) :
    ImportStats × Ctx × σ × Option String :=
  match fetchTree repo with
  | .error err => ({}, ctx, st, some ("fetching tree: " ++ err))
  | .ok entries => importLoop download cb repo entries ctx st {}

/-- The repo loop of GitHubProvider.BulkImport: a failed repo import (which
includes a cancellation observed inside it) is recorded as an error string
and its partial counters are discarded; the loop continues with the
remaining repos. -/
def bulkImportAux {σ : Type} (fetchTree : String → Except String (List TreeEntry))
    (download : Downloader) (cb : ImportCb σ) :
    List String → Ctx → σ → ImportStats → ImportStats × Ctx × σ
  | [], ctx, st, stats => (stats, ctx, st)
  | repo :: rest, ctx, st, stats =>
    let r := importFromRepo fetchTree download cb repo ctx st
    match r.2.2.2 with
    | some err =>
      bulkImportAux fetchTree download cb rest r.2.1 r.2.2.1
        { stats with errors := stats.errors ++ [repo ++ ": " ++ err] }
    | none =>
      bulkImportAux fetchTree download cb rest r.2.1 r.2.2.1
        { stats with total := stats.total + r.1.total,
                     imported := stats.imported + r.1.imported,
                     skipped := stats.skipped + r.1.skipped,
                     failed := stats.failed + r.1.failed,
                     errors := stats.errors ++ r.1.errors }

/-- GitHubProvider.BulkImport: iterate the configured repos and return the
accumulated stats; the error result is always nil. -/
def ghBulkImport {σ : Type} (repos : List String)
    (fetchTree : String → Except String (List TreeEntry))
    (download : Downloader) (cb : ImportCb σ) (ctx : Ctx) (st : σ) :
    ImportStats × Ctx × σ × Option String :=
  let r := bulkImportAux fetchTree download cb repos ctx st {}
  (r.1, r.2.1, r.2.2, none)

/-! ## internal/llm: the two agentic loops -/

/-- llm.LogoSearchResult. -/
structure LogoSearchResult where
  logoURL : String
  companyName : String
  source : String
  confidence : String
deriving DecidableEq, Repr

/-- The parsed input of a submit_logo_url tool call (submitLogoResult after
json unmarshalling). -/
structure SubmitInput where
  logoURL : String := ""
  companyName : String := ""
  source : String := ""
  confidence : String := ""
deriving DecidableEq, Repr

/-- The distinguishable error outcomes of FindLogoURL: each constructor is
one fmt.Errorf site of the two loops. didNotFindURL and endedWithoutLogo are
the NoLogoFound class of the design taxonomy; exceededMaxTurns is
ExceededMaxTurns. -/
inductive FindErr
  | apiCall (msg : String)
  | noChoices
  | didNotFindURL (symbol : String)
  | endedWithoutLogo (symbol : String)
  | exceededMaxTurns (symbol : String)
deriving DecidableEq, Repr

/-- One content block of an Anthropic response: a tool_use block carrying
the tool name and its parsed input, or any non-tool block. -/
inductive ContentBlock
  | toolUse (name : String) (input : SubmitInput)
  | other
deriving DecidableEq, Repr

/-- One Anthropic Messages response. -/
structure AMessage where
  content : List ContentBlock
  stopReason : String
deriving DecidableEq, Repr

/-- First submit_logo_url tool_use block of a response, in content order. -/
def findSubmit : List ContentBlock → Option SubmitInput
  | [] => none
  | .toolUse n input :: rest =>
    if n == "submit_logo_url" then some input else findSubmit rest
  | .other :: rest => findSubmit rest

/-- The turn loop of AnthropicClient.FindLogoURL over a backend oracle
indexed by turn number, also counting the API calls made: on a submit tool
call return the parsed result (empty URL fails); otherwise a response whose
stop reason is end_turn fails immediately; other responses loop; more than
5 turns fails with the max-turns error. -/
def anthropicFindAux (backend : Nat → Except String AMessage) (symbol : String) :
    Nat → Nat → Except FindErr LogoSearchResult × Nat
  | calls, 0 => (.error (.exceededMaxTurns symbol), calls)
  | calls, fuel + 1 =>
    match backend calls with
    | .error e => (.error (.apiCall e), calls + 1)
    | .ok msg =>
      match findSubmit msg.content with
      | some input =>
        if input.logoURL == "" then (.error (.didNotFindURL symbol), calls + 1)
        else
          (.ok { logoURL := input.logoURL, companyName := input.companyName,
                 source := input.source, confidence := input.confidence }, calls + 1)
      | none =>
        if msg.stopReason == "end_turn" then (.error (.endedWithoutLogo symbol), calls + 1)
        else anthropicFindAux backend symbol (calls + 1) fuel

/-- AnthropicClient.FindLogoURL with its bound of 5 turns; the second
component is the number of backend calls made. -/
def anthropicFindLogoURL (backend : Nat → Except String AMessage) (symbol : String) :
    Except FindErr LogoSearchResult × Nat :=
  anthropicFindAux backend symbol 0 5

/-- One tool call of an OpenAI chat response. -/
structure OToolCall where
  name : String
  args : SubmitInput
deriving DecidableEq, Repr

/-- The first choice of an OpenAI chat response (the loop reads only
resp.Choices[0]). -/
structure OChoice where
  toolCalls : List OToolCall
  finishReason : String
deriving DecidableEq, Repr

/-- One OpenAI chat response. -/
structure OResponse where
  choices : List OChoice
deriving DecidableEq, Repr

/-- First submit_logo_url tool call of a choice, in call order. -/
def findSubmitCall : List OToolCall → Option SubmitInput
  | [] => none
  | tc :: rest => if tc.name == "submit_logo_url" then some tc.args else findSubmitCall rest

/-- The turn loop of OpenAIClient.FindLogoURL: an empty choice list fails; a
submit tool call returns the parsed result (empty URL fails); other tool
calls are acknowledged and loop; no tool calls with finish reason stop fails
immediately; no tool calls with another finish reason silently loops; more
than 5 turns fails with the max-turns error. -/
def openaiFindAux (backend : Nat → Except String OResponse) (symbol : String) :
    Nat → Nat → Except FindErr LogoSearchResult × Nat
  | calls, 0 => (.error (.exceededMaxTurns symbol), calls)
  | calls, fuel + 1 =>
    match backend calls with
    | .error e => (.error (.apiCall e), calls + 1)
    | .ok resp =>
      match resp.choices with
      | [] => (.error .noChoices, calls + 1)
      | choice :: _ =>
        if choice.toolCalls.isEmpty then
          if choice.finishReason == "stop" then (.error (.endedWithoutLogo symbol), calls + 1)
          else openaiFindAux backend symbol (calls + 1) fuel
        else
          match findSubmitCall choice.toolCalls with
          | some input =>
            if input.logoURL == "" then (.error (.didNotFindURL symbol), calls + 1)
            else
              (.ok { logoURL := input.logoURL, companyName := input.companyName,
                     source := input.source, confidence := input.confidence }, calls + 1)
          | none => openaiFindAux backend symbol (calls + 1) fuel

/-- OpenAIClient.FindLogoURL with its bound of 5 turns; the second component
is the number of backend calls made. -/
def openaiFindLogoURL (backend : Nat → Except String OResponse) (symbol : String) :
    Except FindErr LogoSearchResult × Nat :=
  openaiFindAux backend symbol 0 5

/-! ## internal/provider/llm_provider.go -/

/-- model.LLMCall audit row (identifier and timestamps omitted, duration
abstracted away). -/
structure LLMCall where
  symbol : String
  provider : String
  model : String
  resultURL : Option String
  success : Bool
deriving DecidableEq, Repr

/-- An llm.Client as the provider sees it: the FindLogoURL outcome for a
symbol (its error already rendered to a string), plus the two names. -/
structure LLMClientM where
  find : String → Except String LogoSearchResult
  providerName : String
  modelName : String

/-- LLMProvider.tryProvider: call FindLogoURL, build the audit row exactly
as recordCall does (success iff the call succeeded, result URL from the
result when present), then download the returned URL. -/
def tryProvider (download : Downloader) (client : LLMClientM) (symbol : String) :
    Except String LogoResult × LLMCall :=
  match client.find symbol with
  | .error e =>
    (.error e,
     { symbol := symbol, provider := client.providerName, model := client.modelName,
       resultURL := none, success := false })
  | .ok sr =>
    let call : LLMCall :=
      { symbol := symbol, provider := client.providerName, model := client.modelName,
        resultURL := some sr.logoURL, success := true }
    match download sr.logoURL with
    | .error e => (.error ("downloading logo from " ++ sr.logoURL ++ ": " ++ e), call)
    | .ok data =>
      (.ok { symbol := symbol, companyName := sr.companyName, imageData := data,
             source := "llm:" ++ client.providerName, originalURL := sr.logoURL }, call)

/-- The client loop of LLMProvider.GetLogo: wait on the shared limiter
(cancellable, indexed by attempt), try the client, record the audit row
(recording failures are swallowed, so the row is always appended here), and
fall through to the next client on failure. -/
def llmGetLogoAux (limiterWait : Nat → Except String Unit) (download : Downloader)
    (symbol : String) :
    List LLMClientM → Nat → List LLMCall → String → Except String LogoResult × List LLMCall
  | [], _, calls, lastErr =>
    (.error ("all LLM providers failed for " ++ symbol ++ ": " ++ lastErr), calls)
  | client :: rest, i, calls, _ =>
    match limiterWait i with
    | .error e => (.error ("rate limit wait: " ++ e), calls)
    | .ok _ =>
      let t := tryProvider download client symbol
      let calls1 := calls ++ [t.2]
      match t.1 with
      | .ok r => (.ok r, calls1)
      | .error e => llmGetLogoAux limiterWait download symbol rest (i + 1) calls1 e

/-- LLMProvider.GetLogo: no configured clients is an immediate error;
otherwise iterate the clients in configured order. -/
def llmGetLogo (clients : List LLMClientM) (limiterWait : Nat → Except String Unit)
    (download : Downloader) (symbol : String) (calls : List LLMCall) :
    Except String LogoResult × List LLMCall :=
  if clients.isEmpty then (.error "no LLM providers configured", calls)
  else llmGetLogoAux limiterWait download symbol clients 0 calls ""

/-! ## internal/service: LogoService -/

/-- Rendering of a StorageErr back to its Go error string. -/
def storageErrMsg : StorageErr → String
  | .errNotFound => "logo not found"
  | .other m => m

/-- The storage.LogoRepository interface as LogoService consumes it,
over an abstract store state. -/
structure RepoOps (ρ : Type) where
  getBySymbol : ρ → String → Except StorageErr Logo
  create : ρ → Logo → Except StorageErr ρ
  setSizeAvailable : ρ → String → LogoSize → Except StorageErr ρ
  setStatus : ρ → String → LogoStatus → String → Except StorageErr ρ

/-- The sqliteLogoRepository instance over the modelled logos table
(statement execution itself does not fail in the model, so the update
operations always succeed). -/
def sqliteRepo : RepoOps DB where
  getBySymbol := DB.getBySymbol
  create := DB.create
  setSizeAvailable := fun db s z => .ok (db.setSizeAvailable s z)
  setStatus := fun db s st m => .ok (db.setStatus s st m)

/-- The per-size flag loop of processAndStore: SetSizeAvailable for each
successful size, logging and ignoring its error. -/
def markSizes {ρ : Type} (repo : RepoOps ρ) (symbol : String) (dbv : ρ) :
    List (LogoSize × Bool) → ρ
  | [] => dbv
  | (size, ok?) :: rest =>
    let dbv1 :=
      if ok? then
        match repo.setSizeAvailable dbv symbol size with
        | .ok d => d
        | .error _ => dbv
      else dbv
    markSizes repo symbol dbv1 rest

/-- The post-upsert part of LogoService.processAndStore: normalize, and on
failure set status failed with the aggregated message (discarding the
SetStatus error) and return a processing error; on full success mark each
successful size and finish with SetStatus processed, whose own result is
returned. -/
def processPhase {ρ : Type} (repo : RepoOps ρ) (resize : Resizer) (dbv : ρ) (fs : FS)
    (result : LogoResult) : ρ × FS × Except String Unit :=
  let pa := ProcessAll resize fs result.symbol result.imageData
  match pa.2.2 with
  | some msg =>
    let dbv1 :=
      match repo.setStatus dbv result.symbol .failed msg with
      | .ok d => d
      | .error _ => dbv
    (dbv1, pa.2.1, .error ("processing: " ++ msg))
  | none =>
    let dbv1 := markSizes repo result.symbol dbv pa.1
    match repo.setStatus dbv1 result.symbol .processed "" with
    | .ok d => (d, pa.2.1, .ok ())
    | .error e => (dbv1, pa.2.1, .error (storageErrMsg e))

/-- LogoService.processAndStore: upsert (skip when already processed,
create a pending record when not found, fall through on any other lookup
error), then the processing phase. -/
def processAndStore {ρ : Type} (repo : RepoOps ρ) (resize : Resizer) (dbv : ρ) (fs : FS)
    (result : LogoResult) : ρ × FS × Except String Unit :=
  match repo.getBySymbol dbv result.symbol with
  | .ok existing =>
    if existing.status == .processed then (dbv, fs, .ok ())
    else processPhase repo resize dbv fs result
  | .error .errNotFound =>
    let lg : Logo :=
      { symbol := result.symbol, companyName := result.companyName,
        source := result.source, originalURL := result.originalURL, status := .pending }
    match repo.create dbv lg with
    | .error e => (dbv, fs, .error ("creating record: " ++ storageErrMsg e))
    | .ok dbv1 => processPhase repo resize dbv1 fs result
  | .error (.other _) => processPhase repo resize dbv fs result

/-- LogoService.fromCache: record lookup, processed check, size-flag check,
then the blob read; any failure is a cache miss to the caller. -/
def fromCache (db : DB) (fs : FS) (symbol : String) (size : LogoSize) :
    Except String Blob :=
  match db.getBySymbol symbol with
  | .error e => .error (storageErrMsg e)
  | .ok logo =>
    if logo.status != .processed then .error "logo status is not processed"
    else if !(logo.hasSize size) then .error ("size " ++ sizeName size ++ " not available")
    else fs.read symbol size

/-- The LLM layer configuration of the service (nil when no LLM keys are
configured). -/
structure LLMCfg where
  clients : List LLMClientM
  limiterWait : Nat → Except String Unit
  download : Downloader

/-- The acquisition layers of the service together with their oracles. -/
structure ServiceCfg where
  repos : List String
  ghDownload : Downloader
  llm : Option LLMCfg
  resize : Resizer

/-- LogoService.acquire: GitHub first; on a miss, the LLM provider when one
is configured; otherwise the no-provider error. The Bool records whether
the LLM layer was invoked. -/
def acquire (cfg : ServiceCfg) (symbol : String) (calls : List LLMCall) :
    Except String LogoResult × List LLMCall × Bool :=
  match ghGetLogo cfg.repos cfg.ghDownload symbol with
  | .ok r => (.ok r, calls, false)
  | .error _ =>
    match cfg.llm with
    | some l =>
      let r := llmGetLogo l.clients l.limiterWait l.download symbol calls
      match r.1 with
      | .ok res => (.ok res, r.2, true)
      | .error _ => (.error ("no provider found a logo for " ++ symbol), r.2, true)
    | none => (.error ("no provider found a logo for " ++ symbol), calls, false)

/-- LogoService.GetLogo: cache, acquire, processAndStore, then re-read the
requested size from the filesystem under the caller-supplied symbol. -/
def serviceGetLogo (cfg : ServiceCfg) (db : DB) (fs : FS) (calls : List LLMCall)
    (symbol : String) (size : LogoSize) :
    Except String Blob × DB × FS × List LLMCall :=
  match fromCache db fs symbol size with
  | .ok data => (.ok data, db, fs, calls)
  | .error _ =>
    let a := acquire cfg symbol calls
    match a.1 with
    | .error e => (.error ("acquiring logo for " ++ symbol ++ ": " ++ e), db, fs, a.2.1)
    | .ok result =>
      let p := processAndStore sqliteRepo cfg.resize db fs result
      match p.2.2 with
      | .error e => (.error ("processing logo for " ++ symbol ++ ": " ++ e), p.1, p.2.1, a.2.1)
      | .ok _ => ((p.2.1).read symbol size, p.1, p.2.1, a.2.1)

/-- The symbol normalization of LogoHandler.GetLogo: the path parameter is
uppercased before the service is invoked. -/
def handlerSymbol (pathParam : String) : String := goToUpper pathParam

/-! ## internal/handler/admin_handler.go: the bulk-import callback -/

/-- AdminHandler.makeImportCallback: skip already-processed symbols with an
"already exists" error, create a record when the lookup returned no record,
then run the same normalize-and-mark phase as processAndStore (whose Go
body the callback duplicates verbatim), with the error flattened to the
callback's message. -/
def adminImportCallback (resize : Resizer) : ImportCb (DB × FS) := fun st result =>
  let (db, fs) := st
  match db.getBySymbol result.symbol with
  | .ok existing =>
    if existing.status == .processed then ((db, fs), some "already exists")
    else
      let p := processPhase sqliteRepo resize db fs result
      ((p.1, p.2.1), match p.2.2 with | .ok _ => none | .error e => some e)
  | .error _ =>
    let lg : Logo :=
      { symbol := result.symbol, companyName := result.companyName,
        source := result.source, originalURL := result.originalURL, status := .pending }
    match db.create lg with
    | .error e => ((db, fs), some ("creating record: " ++ storageErrMsg e))
    | .ok db1 =>
      let p := processPhase sqliteRepo resize db1 fs result
      ((p.1, p.2.1), match p.2.2 with | .ok _ => none | .error e => some e)

/-! ## The record state machine over the core operations -/

/-- Acquisition source of the row for a symbol, when one exists. -/
def DB.sourceOf (db : DB) (symbol : String) : Option String :=
  match db.getBySymbol symbol with
  | .ok lg => some lg.source
  | .error _ => none

/-- Error message of the row for a symbol, when one exists. -/
def DB.errMsgOf (db : DB) (symbol : String) : Option (Option String) :=
  match db.getBySymbol symbol with
  | .ok lg => some lg.errorMessage
  | .error _ => none

/-- The core operations that touch a LogoRecord: the shared ingestion
routine, the bulk-import callback, and the two direct repository updates. -/
inductive Op
  | processStore (result : LogoResult) (resize : Resizer)
  | importCb (result : LogoResult) (resize : Resizer)
  | setSize (symbol : String) (size : LogoSize)
  | setStat (symbol : String) (status : LogoStatus) (errMsg : String)

/-- One operation applied to the metadata-plus-blob state. -/
def applyOp : Op → DB × FS → DB × FS
  | .processStore result resize, (db, fs) =>
    let p := processAndStore sqliteRepo resize db fs result
    (p.1, p.2.1)
  | .importCb result resize, (db, fs) => ((adminImportCallback resize) (db, fs) result).1
  | .setSize symbol size, (db, fs) => (db.setSizeAvailable symbol size, fs)
  | .setStat symbol status errMsg, (db, fs) => (db.setStatus symbol status errMsg, fs)

/-- A sequence of operations applied in order. -/
def runOps : List Op → DB × FS → DB × FS
  | [], w => w
  | op :: rest, w => runOps rest (applyOp op w)

/-- States reachable from the empty store by core operations. -/
def Reachable (w : DB × FS) : Prop :=
  ∃ ops : List Op, w = runOps ops (DB.empty, FS.empty)

/-- A status change allowed by the claimed invariant: no pre-existing
record, no change, or a pending record moving to processed or failed. -/
def statusTransAllowed (before after : Option LogoStatus) : Prop :=
  before = none ∨ after = before ∨
    (before = some .pending ∧ (after = some .processed ∨ after = some .failed))

instance instDecEqExcept {e a : Type} [DecidableEq e] [DecidableEq a] :
    DecidableEq (Except e a) := fun x y =>
  match x, y with
  | .ok v, .ok w => decidable_of_iff (v = w) ⟨fun h => h ▸ rfl, fun h => Except.ok.inj h⟩
  | .error v, .error w =>
    decidable_of_iff (v = w) ⟨fun h => h ▸ rfl, fun h => Except.error.inj h⟩
  | .ok _, .error _ => isFalse (fun h => Except.noConfusion h)
  | .error _, .ok _ => isFalse (fun h => Except.noConfusion h)

instance instDecStatusTrans (b a : Option LogoStatus) : Decidable (statusTransAllowed b a) := by
  unfold statusTransAllowed
  infer_instance

/-- The record-state-machine claim as stated: on every reachable state,
every core operation only makes pending-to-processed or pending-to-failed
status transitions, and never clears a size flag. -/
def RecordInvariantClaim : Prop :=
  ∀ w, Reachable w → ∀ op sym,
    statusTransAllowed ((w.1).statusOf sym) (((applyOp op w).1).statusOf sym) ∧
    (∀ sz, (w.1).flagOf sym sz = true → ((applyOp op w).1).flagOf sym sz = true)

/-! ## Lemmas about the Logo record -/

theorem Logo.symbol_setSize (lg : Logo) (sz : LogoSize) : (lg.setSize sz).symbol = lg.symbol := by
  cases sz <;> rfl

theorem Logo.status_setSize (lg : Logo) (sz : LogoSize) : (lg.setSize sz).status = lg.status := by
  cases sz <;> rfl

theorem Logo.hasSize_setSize_mono (lg : Logo) (sz sz' : LogoSize) (h : lg.hasSize sz = true) :
    (lg.setSize sz').hasSize sz = true := by
  cases sz <;> cases sz' <;> simp_all [Logo.hasSize, Logo.setSize]

theorem Logo.hasSize_withStatus (lg : Logo) (st : LogoStatus) (em : Option String)
    (sz : LogoSize) :
    ({ lg with status := st, errorMessage := em } : Logo).hasSize sz = lg.hasSize sz := by
  cases sz <;> rfl

/-! ## Lemmas about the metadata store -/

theorem DB.logos_mk (l : List Logo) : (⟨l⟩ : DB).logos = l := rfl

/-- A per-symbol row update commutes with row lookup when it preserves the
symbol column. -/
theorem find?_update (l : List Logo) (s sym : String) (f : Logo → Logo)
    (hf : ∀ lg, (f lg).symbol = lg.symbol) :
    (l.map fun lg => if lg.symbol == s then f lg else lg).find? (fun lg => lg.symbol == sym)
      = (l.find? (fun lg => lg.symbol == sym)).map
          (fun lg => if lg.symbol == s then f lg else lg) := by
  have hsymb : ∀ lg : Logo, ((if lg.symbol == s then f lg else lg).symbol) = lg.symbol := by
    intro lg
    by_cases h : (lg.symbol == s) = true
    · rw [if_pos h]; exact hf lg
    · rw [if_neg h]
  induction l with
  | nil => rfl
  | cons hd tl ih =>
    cases e : (hd.symbol == sym) with
    | true => simp only [List.map_cons, List.find?_cons, hsymb, e, Option.map_some']
    | false =>
      simp only [List.map_cons, List.find?_cons, hsymb, e]
      exact ih

theorem getBySymbol_setStatus (db : DB) (s : String) (st : LogoStatus) (m : String)
    (sym : String) :
    (db.setStatus s st m).getBySymbol sym =
      (db.getBySymbol sym).map (fun lg =>
        if lg.symbol == s then
          { lg with status := st, errorMessage := if m == "" then none else some m }
        else lg) := by
  unfold DB.getBySymbol DB.setStatus
  rw [DB.logos_mk, find?_update db.logos s sym
    (fun lg => { lg with status := st, errorMessage := if m == "" then none else some m })
    (fun _ => rfl)]
  cases db.logos.find? (fun lg => lg.symbol == sym) <;> rfl

theorem getBySymbol_setSize (db : DB) (s : String) (z : LogoSize) (sym : String) :
    (db.setSizeAvailable s z).getBySymbol sym =
      (db.getBySymbol sym).map (fun lg => if lg.symbol == s then lg.setSize z else lg) := by
  unfold DB.getBySymbol DB.setSizeAvailable
  rw [DB.logos_mk, find?_update db.logos s sym (fun lg => lg.setSize z)
    (fun lg => Logo.symbol_setSize lg z)]
  cases db.logos.find? (fun lg => lg.symbol == sym) <;> rfl

theorem statusOf_setStatus_self (db : DB) (s : String) (st : LogoStatus) (m : String)
    (h : (db.statusOf s).isSome) :
    (db.setStatus s st m).statusOf s = some st := by
  unfold DB.statusOf at *
  rw [getBySymbol_setStatus]
  cases hg : db.getBySymbol s with
  | error e => rw [hg] at h; simp at h
  | ok lg =>
    have hsym : lg.symbol = s := by
      unfold DB.getBySymbol at hg
      cases hf : db.logos.find? (fun lg0 => lg0.symbol == s) with
      | none => rw [hf] at hg; exact absurd hg (by simp)
      | some lg0 =>
        rw [hf] at hg
        have := List.find?_some hf
        cases hg
        exact beq_iff_eq.mp this
    simp [hsym, Except.map]

theorem statusOf_setStatus_ne (db : DB) (s : String) (st : LogoStatus) (m : String)
    (sym : String) (h : sym ≠ s) :
    (db.setStatus s st m).statusOf sym = db.statusOf sym := by
  unfold DB.statusOf
  rw [getBySymbol_setStatus]
  cases hg : db.getBySymbol sym with
  | error e => rfl
  | ok lg =>
    have hsym : lg.symbol = sym := by
      unfold DB.getBySymbol at hg
      cases hf : db.logos.find? (fun lg0 => lg0.symbol == sym) with
      | none => rw [hf] at hg; exact absurd hg (by simp)
      | some lg0 =>
        rw [hf] at hg
        have := List.find?_some hf
        cases hg
        exact beq_iff_eq.mp this
    have : (lg.symbol == s) = false := by
      rw [hsym]; exact beq_eq_false_iff_ne.mpr h
    simp [this, Except.map]

theorem statusOf_setStatus_none (db : DB) (s : String) (st : LogoStatus) (m : String)
    (h : db.statusOf s = none) :
    (db.setStatus s st m).statusOf s = none := by
  unfold DB.statusOf at *
  rw [getBySymbol_setStatus]
  cases hg : db.getBySymbol s with
  | error e => rfl
  | ok lg => rw [hg] at h; simp at h

theorem flagOf_setStatus (db : DB) (s : String) (st : LogoStatus) (m : String)
    (sym : String) (sz : LogoSize) :
    (db.setStatus s st m).flagOf sym sz = db.flagOf sym sz := by
  unfold DB.flagOf
  rw [getBySymbol_setStatus]
  cases hg : db.getBySymbol sym with
  | error e => rfl
  | ok lg =>
    by_cases h : lg.symbol == s <;> simp [h, Logo.hasSize_withStatus, Except.map]

theorem statusOf_setSize (db : DB) (s : String) (z : LogoSize) (sym : String) :
    (db.setSizeAvailable s z).statusOf sym = db.statusOf sym := by
  unfold DB.statusOf
  rw [getBySymbol_setSize]
  cases hg : db.getBySymbol sym with
  | error e => rfl
  | ok lg =>
    by_cases h : lg.symbol == s <;> simp [h, Logo.status_setSize, Except.map]

theorem flagOf_setSize_mono (db : DB) (s : String) (z : LogoSize) (sym : String)
    (sz : LogoSize) (h : db.flagOf sym sz = true) :
    (db.setSizeAvailable s z).flagOf sym sz = true := by
  unfold DB.flagOf at *
  rw [getBySymbol_setSize]
  cases hg : db.getBySymbol sym with
  | error e => rw [hg] at h; simp at h
  | ok lg =>
    rw [hg] at h
    have h' : lg.hasSize sz = true := h
    by_cases hs : lg.symbol == s <;> simp [hs, Logo.hasSize_setSize_mono, h', Except.map]

/-- Executable success test for Except. -/
def exOk {ε α : Type} : Except ε α → Bool
  | .ok _ => true
  | .error _ => false

theorem create_of_notFound (db : DB) (lg : Logo)
    (h : db.getBySymbol lg.symbol = .error .errNotFound) :
    db.create lg = .ok ⟨db.logos ++ [lg]⟩ := by
  unfold DB.create
  have hany : db.logos.any (fun l0 => l0.symbol == lg.symbol) = false := by
    unfold DB.getBySymbol at h
    cases hf : db.logos.find? (fun l0 => l0.symbol == lg.symbol) with
    | some l0 => rw [hf] at h; cases h
    | none =>
      rw [List.find?_eq_none] at hf
      rw [List.any_eq_false]
      exact hf
  rw [hany]
  simp

theorem getBySymbol_append_found (db : DB) (rest : List Logo) (sym : String) (l0 : Logo)
    (h : db.getBySymbol sym = .ok l0) :
    (DB.mk (db.logos ++ rest)).getBySymbol sym = .ok l0 := by
  unfold DB.getBySymbol at *
  cases hf : db.logos.find? (fun lg => lg.symbol == sym) with
  | none => rw [hf] at h; cases h
  | some l1 =>
    rw [hf] at h
    rw [DB.logos_mk, List.find?_append, hf]
    exact h

theorem getBySymbol_append_one (db : DB) (lg : Logo) (sym : String)
    (h : db.getBySymbol sym = .error .errNotFound) :
    (DB.mk (db.logos ++ [lg])).getBySymbol sym =
      if lg.symbol == sym then .ok lg else .error .errNotFound := by
  unfold DB.getBySymbol at *
  cases hf : db.logos.find? (fun l0 => l0.symbol == sym) with
  | some l1 => rw [hf] at h; cases h
  | none =>
    rw [DB.logos_mk, List.find?_append, hf]
    cases hc : (lg.symbol == sym) <;> simp [List.find?, hc]

/-! ## Lemmas about the size-flag loop and the processing phase -/

theorem sqlite_getBySymbol (db : DB) (s : String) :
    sqliteRepo.getBySymbol db s = db.getBySymbol s := rfl

theorem sqlite_create (db : DB) (lg : Logo) : sqliteRepo.create db lg = db.create lg := rfl

theorem sqlite_setSizeAvailable (db : DB) (s : String) (z : LogoSize) :
    sqliteRepo.setSizeAvailable db s z = .ok (db.setSizeAvailable s z) := rfl

theorem sqlite_setStatus (db : DB) (s : String) (st : LogoStatus) (m : String) :
    sqliteRepo.setStatus db s st m = .ok (db.setStatus s st m) := rfl

theorem statusOf_markSizes (lst : List (LogoSize × Bool)) (db : DB) (sym0 sym : String) :
    (markSizes sqliteRepo sym0 db lst).statusOf sym = db.statusOf sym := by
  induction lst generalizing db with
  | nil => rfl
  | cons p rest ih =>
    cases p with
    | mk size ok? =>
      cases ok? with
      | false =>
        show (markSizes sqliteRepo sym0 db rest).statusOf sym = db.statusOf sym
        exact ih db
      | true =>
        show (markSizes sqliteRepo sym0 (db.setSizeAvailable sym0 size) rest).statusOf sym
          = db.statusOf sym
        rw [ih, statusOf_setSize]

theorem flagOf_markSizes_mono (lst : List (LogoSize × Bool)) (db : DB) (sym0 sym : String)
    (sz : LogoSize) (h : db.flagOf sym sz = true) :
    (markSizes sqliteRepo sym0 db lst).flagOf sym sz = true := by
  induction lst generalizing db with
  | nil => exact h
  | cons p rest ih =>
    cases p with
    | mk size ok? =>
      cases ok? with
      | false =>
        show (markSizes sqliteRepo sym0 db rest).flagOf sym sz = true
        exact ih db h
      | true =>
        show (markSizes sqliteRepo sym0 (db.setSizeAvailable sym0 size) rest).flagOf sym sz = true
        exact ih _ (flagOf_setSize_mono db sym0 size sym sz h)

/-! ## Lemmas about the blob store and the normalization loop -/

theorem FS.read_write_self (fs : FS) (s : String) (z : LogoSize) (b : Blob) :
    (fs.write s z b).read s z = .ok b := by
  unfold FS.read FS.write
  simp [List.find?]

theorem FS.read_write_ne (fs : FS) (s : String) (z : LogoSize) (b : Blob)
    (s' : String) (z' : LogoSize) (h : (s', z') ≠ (s, z)) :
    (fs.write s z b).read s' z' = fs.read s' z' := by
  unfold FS.read FS.write
  have hd : (((s, z), b).1 == (s', z')) = false := by
    simp only [beq_eq_false_iff_ne]
    exact fun he => h (by simp [he.symm])
  simp only [List.find?, hd]
  congr 1
  induction fs.files with
  | nil => rfl
  | cons e rest ih =>
    by_cases he : e.1 == (s, z)
    · have : (e.1 == (s', z')) = false := by
        rw [beq_iff_eq] at he
        rw [beq_eq_false_iff_ne, he]
        exact fun hc => h hc.symm
      simp [List.filter, he, List.find?, this, ih]
    · simp only [List.filter, he]
      cases hm : (e.1 == (s', z')) <;> simp [List.find?, hm, ih, he]

theorem processSizes_results (resize : Resizer) (sym : String) (img : Blob) (fs : FS)
    (sizes : List LogoSize) :
    (processSizes resize sym img fs sizes).1 =
      sizes.map (fun sz => (sz, exOk (resize img (SizePixels sz)))) := by
  induction sizes generalizing fs with
  | nil => rfl
  | cons z rest ih =>
    cases hr : resize img (SizePixels z) <;> simp [processSizes, hr, ih, exOk]

theorem processSizes_errs_nil_iff (resize : Resizer) (sym : String) (img : Blob) (fs : FS)
    (sizes : List LogoSize) :
    (processSizes resize sym img fs sizes).2.1 = [] ↔
      ∀ sz ∈ sizes, exOk (resize img (SizePixels sz)) = true := by
  induction sizes generalizing fs with
  | nil => simp [processSizes]
  | cons z rest ih =>
    cases hr : resize img (SizePixels z) with
    | error e => simp [processSizes, hr, exOk]
    | ok b => simp [processSizes, hr, exOk, ih]

theorem processSizes_read_preserved (resize : Resizer) (sym : String) (img : Blob) (fs : FS)
    (sizes : List LogoSize) (sym' : String) (sz' : LogoSize)
    (h : sym' ≠ sym ∨ sz' ∉ sizes) :
    ((processSizes resize sym img fs sizes).2.2).read sym' sz' = fs.read sym' sz' := by
  induction sizes generalizing fs with
  | nil => rfl
  | cons z rest ih =>
    have hne : (sym', sz') ≠ (sym, z) := by
      rcases h with h | h
      · exact fun hc => h (by simpa using congrArg Prod.fst hc)
      · intro hc
        exact h (by simp [List.mem_cons, show sz' = z by simpa using congrArg Prod.snd hc])
    have hrest : sym' ≠ sym ∨ sz' ∉ rest := by
      rcases h with h | h
      · exact Or.inl h
      · exact Or.inr (fun hc => h (List.mem_cons_of_mem _ hc))
    cases hr : resize img (SizePixels z) with
    | error e => simpa [processSizes, hr] using ih fs hrest
    | ok b =>
      simp only [processSizes, hr]
      rw [ih _ hrest, FS.read_write_ne _ _ _ _ _ _ hne]

theorem processSizes_read_ok (resize : Resizer) (sym : String) (img : Blob) (fs : FS)
    (sizes : List LogoSize) (sz : LogoSize) (b : Blob)
    (hnd : sizes.Nodup) (hmem : sz ∈ sizes) (hok : resize img (SizePixels sz) = .ok b) :
    ((processSizes resize sym img fs sizes).2.2).read sym sz = .ok b := by
  induction sizes generalizing fs with
  | nil => cases hmem
  | cons z rest ih =>
    rcases List.mem_cons.mp hmem with rfl | hmem'
    · simp only [processSizes, hok]
      rw [processSizes_read_preserved _ _ _ _ _ _ _ (Or.inr (by simp at hnd; exact hnd.1))]
      exact FS.read_write_self _ _ _ _
    · have hnd' : rest.Nodup := (List.nodup_cons.mp hnd).2
      cases hr : resize img (SizePixels z) with
      | error e => simpa [processSizes, hr] using ih fs hnd' hmem'
      | ok b2 => simpa [processSizes, hr] using ih (fs.write sym z b2) hnd' hmem'

theorem ProcessAll_err_none_iff (resize : Resizer) (fs : FS) (sym : String) (img : Blob) :
    (ProcessAll resize fs sym img).2.2 = none ↔
      ∀ sz ∈ AllSizes, exOk (resize img (SizePixels sz)) = true := by
  unfold ProcessAll
  rw [← processSizes_errs_nil_iff resize sym img fs AllSizes]
  cases he : (processSizes resize sym img fs AllSizes).2.1 <;> simp [he]

theorem processPhase_sqlite_fail (resize : Resizer) (db : DB) (fs : FS) (r : LogoResult)
    (msg : String) (h : (ProcessAll resize fs r.symbol r.imageData).2.2 = some msg) :
    processPhase sqliteRepo resize db fs r =
      (db.setStatus r.symbol .failed msg,
       (ProcessAll resize fs r.symbol r.imageData).2.1,
       .error ("processing: " ++ msg)) := by
  simp only [processPhase]
  rw [h]
  simp only [sqlite_setStatus]

theorem processPhase_sqlite_ok (resize : Resizer) (db : DB) (fs : FS) (r : LogoResult)
    (h : (ProcessAll resize fs r.symbol r.imageData).2.2 = none) :
    processPhase sqliteRepo resize db fs r =
      ((markSizes sqliteRepo r.symbol db
          (ProcessAll resize fs r.symbol r.imageData).1).setStatus r.symbol .processed "",
       (ProcessAll resize fs r.symbol r.imageData).2.1,
       .ok ()) := by
  simp only [processPhase]
  rw [h]
  simp only [sqlite_setStatus]


/-! ## Lemmas about record creation and the upsert of processAndStore -/

theorem statusOf_append_ne (db : DB) (lg : Logo) (sym : String) (h : lg.symbol ≠ sym) :
    (DB.mk (db.logos ++ [lg])).statusOf sym = db.statusOf sym := by
  unfold DB.statusOf DB.getBySymbol
  rw [DB.logos_mk, List.find?_append]
  cases hf : db.logos.find? (fun l0 => l0.symbol == sym) with
  | some l0 => rfl
  | none =>
    have : (lg.symbol == sym) = false := beq_eq_false_iff_ne.mpr h
    simp [List.find?, this]

theorem flagOf_append_ne (db : DB) (lg : Logo) (sym : String) (sz : LogoSize)
    (h : lg.symbol ≠ sym) :
    (DB.mk (db.logos ++ [lg])).flagOf sym sz = db.flagOf sym sz := by
  unfold DB.flagOf DB.getBySymbol
  rw [DB.logos_mk, List.find?_append]
  cases hf : db.logos.find? (fun l0 => l0.symbol == sym) with
  | some l0 => rfl
  | none =>
    have : (lg.symbol == sym) = false := beq_eq_false_iff_ne.mpr h
    simp [List.find?, this]

theorem getBySymbol_append_self (db : DB) (lg : Logo)
    (h : db.getBySymbol lg.symbol = .error .errNotFound) :
    (DB.mk (db.logos ++ [lg])).getBySymbol lg.symbol = .ok lg := by
  rw [getBySymbol_append_one db lg lg.symbol h]
  simp

theorem statusOf_append_self (db : DB) (lg : Logo)
    (h : db.getBySymbol lg.symbol = .error .errNotFound) :
    (DB.mk (db.logos ++ [lg])).statusOf lg.symbol = some lg.status := by
  unfold DB.statusOf
  rw [getBySymbol_append_self db lg h]

theorem flagOf_append_self (db : DB) (lg : Logo) (sz : LogoSize)
    (h : db.getBySymbol lg.symbol = .error .errNotFound) :
    (DB.mk (db.logos ++ [lg])).flagOf lg.symbol sz = lg.hasSize sz := by
  unfold DB.flagOf
  rw [getBySymbol_append_self db lg h]

theorem errMsgOf_setStatus_self (db : DB) (s : String) (st : LogoStatus) (m : String)
    (hm : m ≠ "") (h : (db.statusOf s).isSome) :
    (db.setStatus s st m).errMsgOf s = some (some m) := by
  unfold DB.errMsgOf
  rw [getBySymbol_setStatus]
  cases hg : db.getBySymbol s with
  | error e => unfold DB.statusOf at h; rw [hg] at h; simp at h
  | ok lg =>
    have hsym : lg.symbol = s := by
      unfold DB.getBySymbol at hg
      cases hf : db.logos.find? (fun lg0 => lg0.symbol == s) with
      | none => rw [hf] at hg; exact absurd hg (by simp)
      | some lg0 =>
        rw [hf] at hg
        have := List.find?_some hf
        cases hg
        exact beq_iff_eq.mp this
    have hm' : (m == "") = false := beq_eq_false_iff_ne.mpr hm
    simp [hsym, Except.map, hm']

/-- The pending record created by the upsert of processAndStore (and by the
bulk-import callback) for a provider result. -/
def newPendingLogo (r : LogoResult) : Logo :=
  { symbol := r.symbol, companyName := r.companyName,
    source := r.source, originalURL := r.originalURL, status := .pending }

theorem hasSize_newPendingLogo (r : LogoResult) (sz : LogoSize) :
    (newPendingLogo r).hasSize sz = false := by
  cases sz <;> rfl

theorem processAndStore_processed (resize : Resizer) (db : DB) (fs : FS) (r : LogoResult)
    (lg : Logo) (h : db.getBySymbol r.symbol = .ok lg) (hst : lg.status = .processed) :
    processAndStore sqliteRepo resize db fs r = (db, fs, .ok ()) := by
  simp only [processAndStore, sqlite_getBySymbol]
  rw [h]
  simp [hst]

theorem processAndStore_notProcessed (resize : Resizer) (db : DB) (fs : FS) (r : LogoResult)
    (lg : Logo) (h : db.getBySymbol r.symbol = .ok lg) (hst : lg.status ≠ .processed) :
    processAndStore sqliteRepo resize db fs r = processPhase sqliteRepo resize db fs r := by
  simp only [processAndStore, sqlite_getBySymbol]
  rw [h]
  have : (lg.status == LogoStatus.processed) = false := beq_eq_false_iff_ne.mpr hst
  simp [this]

theorem processAndStore_notFound (resize : Resizer) (db : DB) (fs : FS) (r : LogoResult)
    (h : db.getBySymbol r.symbol = .error .errNotFound) :
    processAndStore sqliteRepo resize db fs r =
      processPhase sqliteRepo resize (DB.mk (db.logos ++ [newPendingLogo r])) fs r := by
  simp only [processAndStore, sqlite_getBySymbol]
  rw [h]
  have hc : db.create (newPendingLogo r) = .ok ⟨db.logos ++ [newPendingLogo r]⟩ :=
    create_of_notFound db (newPendingLogo r) h
  simp only [sqlite_create]
  simp only [newPendingLogo] at hc
  rw [hc]
  simp only [newPendingLogo]


/-! ## Status and flag behaviour of one ingestion step -/

theorem getBySymbol_no_other (db : DB) (sym : String) (m : String) :
    db.getBySymbol sym ≠ .error (.other m) := by
  unfold DB.getBySymbol
  cases db.logos.find? (fun lg => lg.symbol == sym) <;> simp

theorem statusOf_isSome_of_ok (db : DB) (sym : String) (lg : Logo)
    (h : db.getBySymbol sym = .ok lg) : (db.statusOf sym).isSome := by
  unfold DB.statusOf
  rw [h]
  rfl

theorem processPhase_statusOf_ne (resize : Resizer) (db : DB) (fs : FS) (r : LogoResult)
    (sym : String) (h : sym ≠ r.symbol) :
    ((processPhase sqliteRepo resize db fs r).1).statusOf sym = db.statusOf sym := by
  cases hp : (ProcessAll resize fs r.symbol r.imageData).2.2 with
  | some msg =>
    rw [processPhase_sqlite_fail resize db fs r msg hp]
    exact statusOf_setStatus_ne db r.symbol .failed msg sym h
  | none =>
    rw [processPhase_sqlite_ok resize db fs r hp]
    rw [statusOf_setStatus_ne _ r.symbol .processed "" sym h, statusOf_markSizes]

theorem processPhase_statusOf_self (resize : Resizer) (db : DB) (fs : FS) (r : LogoResult)
    (hrow : (db.statusOf r.symbol).isSome) :
    ((processPhase sqliteRepo resize db fs r).1).statusOf r.symbol = some .failed ∨
    ((processPhase sqliteRepo resize db fs r).1).statusOf r.symbol = some .processed := by
  cases hp : (ProcessAll resize fs r.symbol r.imageData).2.2 with
  | some msg =>
    rw [processPhase_sqlite_fail resize db fs r msg hp]
    exact Or.inl (statusOf_setStatus_self db r.symbol .failed msg hrow)
  | none =>
    rw [processPhase_sqlite_ok resize db fs r hp]
    refine Or.inr (statusOf_setStatus_self _ r.symbol .processed "" ?_)
    rw [statusOf_markSizes]
    exact hrow

theorem processPhase_flagOf_mono (resize : Resizer) (db : DB) (fs : FS) (r : LogoResult)
    (sym : String) (sz : LogoSize) (h : db.flagOf sym sz = true) :
    ((processPhase sqliteRepo resize db fs r).1).flagOf sym sz = true := by
  cases hp : (ProcessAll resize fs r.symbol r.imageData).2.2 with
  | some msg =>
    rw [processPhase_sqlite_fail resize db fs r msg hp, flagOf_setStatus]
    exact h
  | none =>
    rw [processPhase_sqlite_ok resize db fs r hp, flagOf_setStatus]
    exact flagOf_markSizes_mono _ db r.symbol sym sz h

theorem processAndStore_statusOf_ne (resize : Resizer) (db : DB) (fs : FS) (r : LogoResult)
    (sym : String) (h : sym ≠ r.symbol) :
    ((processAndStore sqliteRepo resize db fs r).1).statusOf sym = db.statusOf sym := by
  cases hg : db.getBySymbol r.symbol with
  | ok lg =>
    by_cases hst : lg.status = .processed
    · rw [processAndStore_processed resize db fs r lg hg hst]
    · rw [processAndStore_notProcessed resize db fs r lg hg hst]
      exact processPhase_statusOf_ne resize db fs r sym h
  | error e =>
    cases e with
    | other m => exact absurd hg (getBySymbol_no_other db r.symbol m)
    | errNotFound =>
      rw [processAndStore_notFound resize db fs r hg]
      rw [processPhase_statusOf_ne _ _ _ _ sym h]
      exact statusOf_append_ne db (newPendingLogo r) sym h.symm

theorem processAndStore_flagOf_mono (resize : Resizer) (db : DB) (fs : FS) (r : LogoResult)
    (sym : String) (sz : LogoSize) (h : db.flagOf sym sz = true) :
    ((processAndStore sqliteRepo resize db fs r).1).flagOf sym sz = true := by
  cases hg : db.getBySymbol r.symbol with
  | ok lg =>
    by_cases hst : lg.status = .processed
    · rw [processAndStore_processed resize db fs r lg hg hst]; exact h
    · rw [processAndStore_notProcessed resize db fs r lg hg hst]
      exact processPhase_flagOf_mono resize db fs r sym sz h
  | error e =>
    cases e with
    | other m => exact absurd hg (getBySymbol_no_other db r.symbol m)
    | errNotFound =>
      rw [processAndStore_notFound resize db fs r hg]
      refine processPhase_flagOf_mono resize _ fs r sym sz ?_
      by_cases hsym : sym = r.symbol
      · subst hsym
        unfold DB.flagOf at h
        rw [hg] at h
        cases h
      · rw [flagOf_append_ne db (newPendingLogo r) sym sz (fun hc => hsym hc.symm)]
        exact h

/-- The status of a record after one processAndStore step: a processed
record keeps its status; every other outcome leaves the status unchanged or
sets it to processed or failed. -/
theorem processAndStore_step_status (resize : Resizer) (db : DB) (fs : FS) (r : LogoResult)
    (sym : String) :
    (db.statusOf sym = some .processed →
      ((processAndStore sqliteRepo resize db fs r).1).statusOf sym = some .processed) ∧
    (((processAndStore sqliteRepo resize db fs r).1).statusOf sym = db.statusOf sym ∨
     ((processAndStore sqliteRepo resize db fs r).1).statusOf sym = some .processed ∨
     ((processAndStore sqliteRepo resize db fs r).1).statusOf sym = some .failed) := by
  by_cases hsym : sym = r.symbol
  · subst hsym
    cases hg : db.getBySymbol r.symbol with
    | ok lg =>
      by_cases hst : lg.status = .processed
      · rw [processAndStore_processed resize db fs r lg hg hst]
        constructor
        · intro h; exact h
        · exact Or.inl rfl
      · rw [processAndStore_notProcessed resize db fs r lg hg hst]
        have hrow := statusOf_isSome_of_ok db r.symbol lg hg
        rcases processPhase_statusOf_self resize db fs r hrow with hh | hh
        · constructor
          · intro hproc
            unfold DB.statusOf at hproc
            rw [hg] at hproc
            exact absurd (Option.some.inj hproc) hst
          · exact Or.inr (Or.inr hh)
        · exact ⟨fun _ => hh, Or.inr (Or.inl hh)⟩
    | error e =>
      cases e with
      | other m => exact absurd hg (getBySymbol_no_other db r.symbol m)
      | errNotFound =>
        rw [processAndStore_notFound resize db fs r hg]
        have hnone : db.statusOf r.symbol = none := by
          unfold DB.statusOf
          rw [hg]
        have hrow : ((DB.mk (db.logos ++ [newPendingLogo r])).statusOf r.symbol).isSome := by
          rw [show r.symbol = (newPendingLogo r).symbol from rfl,
            statusOf_append_self db (newPendingLogo r) hg]
          rfl
        rcases processPhase_statusOf_self resize _ fs r hrow with hh | hh
        · refine ⟨fun hproc => ?_, Or.inr (Or.inr hh)⟩
          rw [hnone] at hproc
          cases hproc
        · exact ⟨fun _ => hh, Or.inr (Or.inl hh)⟩
  · rw [processAndStore_statusOf_ne resize db fs r sym hsym]
    exact ⟨fun h => h, Or.inl rfl⟩

/-- The bulk-import callback mutates the store exactly as processAndStore
does (they share the per-result pipeline; only the returned error shape
differs). -/
theorem adminCb_state_eq (resize : Resizer) (db : DB) (fs : FS) (r : LogoResult) :
    ((adminImportCallback resize) (db, fs) r).1 =
      ((processAndStore sqliteRepo resize db fs r).1,
       (processAndStore sqliteRepo resize db fs r).2.1) := by
  cases hg : db.getBySymbol r.symbol with
  | ok lg =>
    by_cases hst : lg.status = .processed
    · simp only [adminImportCallback]
      rw [hg, processAndStore_processed resize db fs r lg hg hst]
      simp [hst]
    · have hb : (lg.status == LogoStatus.processed) = false := beq_eq_false_iff_ne.mpr hst
      simp only [adminImportCallback]
      rw [hg, processAndStore_notProcessed resize db fs r lg hg hst]
      simp [hb]
  | error e =>
    cases e with
    | other m => exact absurd hg (getBySymbol_no_other db r.symbol m)
    | errNotFound =>
      have hc : db.create (newPendingLogo r) = .ok ⟨db.logos ++ [newPendingLogo r]⟩ :=
        create_of_notFound db (newPendingLogo r) hg
      simp only [adminImportCallback]
      rw [hg, processAndStore_notFound resize db fs r hg]
      simp only [newPendingLogo] at hc
      rw [hc]
      simp only [newPendingLogo]


/-! ## Remaining helper lemmas -/

theorem statusOf_setStatus_char (db : DB) (s : String) (st : LogoStatus) (m : String)
    (sym : String) :
    (db.setStatus s st m).statusOf sym =
      if sym = s then (db.statusOf sym).map (fun _ => st) else db.statusOf sym := by
  by_cases h : sym = s
  · subst h
    cases hs : db.statusOf sym with
    | none => simp [statusOf_setStatus_none db sym st m hs, hs]
    | some st0 => simp [statusOf_setStatus_self db sym st m (by rw [hs]; rfl), hs]
  · simp [h, statusOf_setStatus_ne db s st m sym h]

theorem length_setStatus (db : DB) (s : String) (st : LogoStatus) (m : String) :
    (db.setStatus s st m).logos.length = db.logos.length := by
  simp [DB.setStatus]

theorem length_setSize (db : DB) (s : String) (z : LogoSize) :
    (db.setSizeAvailable s z).logos.length = db.logos.length := by
  simp [DB.setSizeAvailable]

theorem length_markSizes (lst : List (LogoSize × Bool)) (db : DB) (s : String) :
    (markSizes sqliteRepo s db lst).logos.length = db.logos.length := by
  induction lst generalizing db with
  | nil => rfl
  | cons p rest ih =>
    cases p with
    | mk z ok? =>
      cases ok? with
      | false =>
        show (markSizes sqliteRepo s db rest).logos.length = db.logos.length
        exact ih db
      | true =>
        show (markSizes sqliteRepo s (db.setSizeAvailable s z) rest).logos.length
          = db.logos.length
        rw [ih, length_setSize]

theorem length_processPhase (resize : Resizer) (db : DB) (fs : FS) (r : LogoResult) :
    ((processPhase sqliteRepo resize db fs r).1).logos.length = db.logos.length := by
  cases hp : (ProcessAll resize fs r.symbol r.imageData).2.2 with
  | some msg => rw [processPhase_sqlite_fail resize db fs r msg hp, length_setStatus]
  | none =>
    rw [processPhase_sqlite_ok resize db fs r hp, length_setStatus, length_markSizes]

theorem ProcessAll_fs (resize : Resizer) (fs : FS) (sym : String) (img : Blob) :
    (ProcessAll resize fs sym img).2.1 = (processSizes resize sym img fs AllSizes).2.2 := rfl

theorem ProcessAll_err_some (resize : Resizer) (fs : FS) (sym : String) (img : Blob)
    (msg : String) (h : (ProcessAll resize fs sym img).2.2 = some msg) :
    msg = "processing errors: " ++
      String.intercalate "; " ((processSizes resize sym img fs AllSizes).2.1) := by
  unfold ProcessAll at h
  by_cases he : (processSizes resize sym img fs AllSizes).2.1.isEmpty
  · simp [he] at h
  · simp only [he, if_neg] at h
    simp at h
    exact h.symm

theorem processing_errors_ne_empty (x : String) : ("processing errors: " ++ x) ≠ "" := by
  intro h
  have hd : ("processing errors: ".data ++ x.data) = ([] : List Char) := congrArg String.data h
  rw [List.append_eq_nil] at hd
  exact absurd hd.1 (by decide)

/-! ## A repository whose lookup fails with a non-NotFound storage error -/

/-- A LogoRepository identical to the SQLite one except that GetBySymbol
fails with a wrapped (non-NotFound) storage error, as a transport or engine
failure would. -/
def faultyRepo (m : String) : RepoOps DB :=
  { getBySymbol := fun _ _ => .error (.other m)
    create := sqliteRepo.create
    setSizeAvailable := sqliteRepo.setSizeAvailable
    setStatus := sqliteRepo.setStatus }

theorem markSizes_faulty (m : String) (s : String) (db : DB) (lst : List (LogoSize × Bool)) :
    markSizes (faultyRepo m) s db lst = markSizes sqliteRepo s db lst := by
  induction lst generalizing db with
  | nil => rfl
  | cons p rest ih =>
    cases p with
    | mk z ok? =>
      cases ok? with
      | false =>
        show markSizes (faultyRepo m) s db rest = markSizes sqliteRepo s db rest
        exact ih db
      | true =>
        show markSizes (faultyRepo m) s (db.setSizeAvailable s z) rest
          = markSizes sqliteRepo s (db.setSizeAvailable s z) rest
        exact ih _

theorem processPhase_faulty (m : String) (resize : Resizer) (db : DB) (fs : FS)
    (r : LogoResult) :
    processPhase (faultyRepo m) resize db fs r = processPhase sqliteRepo resize db fs r := by
  cases hp : (ProcessAll resize fs r.symbol r.imageData).2.2 with
  | some msg =>
    simp only [processPhase]
    rw [hp]
    rfl
  | none =>
    simp only [processPhase]
    rw [hp, markSizes_faulty]
    rfl

/-! ## Concrete fixtures shared by the claim theorems -/

/-- Resizing oracle that succeeds at every size with the source bytes. -/
def resizeOkId : Resizer := fun img _ => .ok img

/-- Resizing oracle that fails at every size. -/
def resizeFailAll : Resizer := fun _ _ => .error "vips: bad image"

/-- Resizing oracle that fails only at the 16px (xs) size. -/
def resizeFailXS : Resizer := fun img px =>
  if px == 16 then .error "vips: bad region" else .ok img

/-- A sample provider result for the symbol AAPL. -/
def sampleResult : LogoResult :=
  { symbol := "AAPL", imageData := [7], source := "github:r", originalURL := "u" }

/-- A store holding one already-processed AAPL record. -/
def dbAAPLProcessed : DB :=
  ⟨[{ symbol := "AAPL", companyName := "", source := "github:r", originalURL := "u",
      status := .processed }]⟩


/-! ## Claim C4 -/

/-- C4: for a symbol whose metadata record exists with status processed,
processAndStore is a no-op success: it returns ok and performs zero writes —
the metadata store and the blob store come back unchanged. -/
theorem C4_idempotent_processed (resize : Resizer) (db : DB) (fs : FS) (r : LogoResult)
    (lg : Logo) (h : db.getBySymbol r.symbol = .ok lg) (hst : lg.status = .processed) :
    processAndStore sqliteRepo resize db fs r = (db, fs, .ok ()) :=
  processAndStore_processed resize db fs r lg h hst

theorem C4_idempotent_processed_witness :
    processAndStore sqliteRepo resizeFailAll dbAAPLProcessed FS.empty sampleResult =
      (dbAAPLProcessed, FS.empty, .ok ()) :=
  C4_idempotent_processed resizeFailAll dbAAPLProcessed FS.empty sampleResult
    { symbol := "AAPL", companyName := "", source := "github:r", originalURL := "u",
      status := .processed }
    (by decide) rfl

/-! ## Claim C10 -/

/-- C10: when the metadata lookup of processAndStore fails with a storage
error other than NotFound, the routine neither creates a record nor returns
the lookup error: it runs the processing phase (normalization, size-flag
updates, final status update) exactly as if the lookup had succeeded, the
record count is unchanged, and when every size normalizes it even returns
success although no record is guaranteed to exist. -/
theorem C10_faulty_lookup_falls_through (m : String) (resize : Resizer) (db : DB) (fs : FS)
    (r : LogoResult) :
    processAndStore (faultyRepo m) resize db fs r = processPhase sqliteRepo resize db fs r ∧
    ((processAndStore (faultyRepo m) resize db fs r).1).logos.length = db.logos.length ∧
    ((∀ sz ∈ AllSizes, exOk (resize r.imageData (SizePixels sz)) = true) →
      (processAndStore (faultyRepo m) resize db fs r).2.2 = .ok ()) := by
  have heq : processAndStore (faultyRepo m) resize db fs r
      = processPhase (faultyRepo m) resize db fs r := rfl
  rw [heq, processPhase_faulty]
  refine ⟨rfl, length_processPhase resize db fs r, fun hall => ?_⟩
  have hp : (ProcessAll resize fs r.symbol r.imageData).2.2 = none :=
    (ProcessAll_err_none_iff resize fs r.symbol r.imageData).mpr
      (fun sz hsz => hall sz hsz)
  rw [processPhase_sqlite_ok resize db fs r hp]

theorem C10_faulty_lookup_falls_through_witness :
    (∀ sz ∈ AllSizes, exOk (resizeOkId (sampleResult.imageData) (SizePixels sz)) = true) ∧
    (processAndStore (faultyRepo "database is locked") resizeOkId DB.empty FS.empty
        sampleResult).2.2 = .ok () ∧
    ((processAndStore (faultyRepo "database is locked") resizeOkId DB.empty FS.empty
        sampleResult).1).logos.length = DB.empty.logos.length :=
  ⟨by decide,
   (C10_faulty_lookup_falls_through "database is locked" resizeOkId DB.empty FS.empty
      sampleResult).2.2 (by decide),
   (C10_faulty_lookup_falls_through "database is locked" resizeOkId DB.empty FS.empty
      sampleResult).2.1⟩

/-! ## Claim C2 -/

/-- C2 counterexample: the record state machine admits a failed-to-processed
transition. From the empty store, ingesting AAPL with a fully failing
resizer reaches a record in status failed; re-ingesting it with a succeeding
resizer moves that record to processed, which is not one of the claimed
pending-to-processed or pending-to-failed transitions. So the claimed
invariant is false. -/
theorem C2_counterexample : ¬ RecordInvariantClaim := by
  intro h
  have hr : Reachable (runOps [.processStore sampleResult resizeFailAll]
      (DB.empty, FS.empty)) :=
    ⟨[.processStore sampleResult resizeFailAll], rfl⟩
  have h2 := (h _ hr (.processStore sampleResult resizeOkId) "AAPL").1
  have hb : ((runOps [.processStore sampleResult resizeFailAll]
      (DB.empty, FS.empty)).1).statusOf "AAPL" = some .failed := by decide
  have ha : ((applyOp (.processStore sampleResult resizeOkId)
      (runOps [.processStore sampleResult resizeFailAll]
        (DB.empty, FS.empty))).1).statusOf "AAPL" = some .processed := by decide
  rw [hb, ha] at h2
  exact (by decide : ¬ statusTransAllowed (some .failed) (some .processed)) h2

/-- C2 amended: across the core operations, size-availability flags are
monotone (never cleared once true), and the record status behaves as
follows: under ProcessAndStore and the bulk-import callback a processed
record never changes status and every other record either keeps its status
or moves to processed or failed (in particular failed-to-processed occurs
on a successful reprocess); SetSizeAvailable never changes a status; and
SetStatus unconditionally writes exactly its status argument to the
addressed record. -/
theorem C2_invariants_amended :
    (∀ (op : Op) (w : DB × FS) (sym : String) (sz : LogoSize),
        (w.1).flagOf sym sz = true → ((applyOp op w).1).flagOf sym sz = true) ∧
    (∀ (result : LogoResult) (resize : Resizer) (w : DB × FS) (sym : String),
        ((w.1).statusOf sym = some .processed →
          ((applyOp (.processStore result resize) w).1).statusOf sym = some .processed) ∧
        (((applyOp (.processStore result resize) w).1).statusOf sym = (w.1).statusOf sym ∨
         ((applyOp (.processStore result resize) w).1).statusOf sym = some .processed ∨
         ((applyOp (.processStore result resize) w).1).statusOf sym = some .failed)) ∧
    (∀ (result : LogoResult) (resize : Resizer) (w : DB × FS) (sym : String),
        ((w.1).statusOf sym = some .processed →
          ((applyOp (.importCb result resize) w).1).statusOf sym = some .processed) ∧
        (((applyOp (.importCb result resize) w).1).statusOf sym = (w.1).statusOf sym ∨
         ((applyOp (.importCb result resize) w).1).statusOf sym = some .processed ∨
         ((applyOp (.importCb result resize) w).1).statusOf sym = some .failed)) ∧
    (∀ (w : DB × FS) (s : String) (z : LogoSize) (sym : String),
        ((applyOp (.setSize s z) w).1).statusOf sym = (w.1).statusOf sym) ∧
    (∀ (w : DB × FS) (s : String) (st : LogoStatus) (m : String) (sym : String),
        ((applyOp (.setStat s st m) w).1).statusOf sym =
          if sym = s then ((w.1).statusOf sym).map (fun _ => st) else (w.1).statusOf sym) := by
  have himpCb : ∀ (result : LogoResult) (resize : Resizer) (w : DB × FS),
      (applyOp (.importCb result resize) w).1 =
        (processAndStore sqliteRepo resize w.1 w.2 result).1 := by
    intro result resize w
    show ((adminImportCallback resize) (w.1, w.2) result).1.1 = _
    rw [adminCb_state_eq]
  refine ⟨?_, ?_, ?_, ?_, ?_⟩
  · intro op w sym sz h
    cases op with
    | processStore result resize => exact processAndStore_flagOf_mono resize w.1 w.2 result sym sz h
    | importCb result resize =>
      have := himpCb result resize w
      show ((applyOp (.importCb result resize) w).1).flagOf sym sz = true
      rw [this]
      exact processAndStore_flagOf_mono resize w.1 w.2 result sym sz h
    | setSize s z => exact flagOf_setSize_mono w.1 s z sym sz h
    | setStat s st m => rw [show (applyOp (.setStat s st m) w).1 = w.1.setStatus s st m from rfl,
        flagOf_setStatus]; exact h
  · intro result resize w sym
    exact processAndStore_step_status resize w.1 w.2 result sym
  · intro result resize w sym
    rw [himpCb result resize w]
    exact processAndStore_step_status resize w.1 w.2 result sym
  · intro w s z sym
    exact statusOf_setSize w.1 s z sym
  · intro w s st m sym
    exact statusOf_setStatus_char w.1 s st m sym

theorem C2_invariants_amended_witness :
    ((runOps [.processStore sampleResult resizeOkId] (DB.empty, FS.empty)).1).flagOf
        "AAPL" .m = true ∧
    ((applyOp (.setStat "AAPL" .failed "boom")
        (runOps [.processStore sampleResult resizeOkId]
          (DB.empty, FS.empty))).1).flagOf "AAPL" .m = true :=
  ⟨by decide,
   C2_invariants_amended.1 (.setStat "AAPL" .failed "boom")
     (runOps [.processStore sampleResult resizeOkId] (DB.empty, FS.empty))
     "AAPL" .m (by decide)⟩

/-! ## Claim C1 -/

/-- C1 counterexample: with a resizer failing only at the xs size,
processAndStore on a fresh AAPL record returns the aggregated processing
error and sets status failed, and the succeeded sizes' blobs are written —
but the size-availability flag of the succeeded size s stays false (the
flag-marking loop is skipped on any normalization error), and the cache
read path reports the record unservable, contradicting the claim that the
succeeded sizes' flags are set and remain servable. -/
theorem C1_counterexample :
    (processAndStore sqliteRepo resizeFailXS DB.empty FS.empty sampleResult).2.2 =
      .error "processing: processing errors: xs: vips: bad region" ∧
    ((processAndStore sqliteRepo resizeFailXS DB.empty FS.empty sampleResult).2.1).read
      "AAPL" .s = .ok [7] ∧
    ((processAndStore sqliteRepo resizeFailXS DB.empty FS.empty sampleResult).1).statusOf
      "AAPL" = some .failed ∧
    ((processAndStore sqliteRepo resizeFailXS DB.empty FS.empty sampleResult).1).flagOf
      "AAPL" .s = false ∧
    fromCache (processAndStore sqliteRepo resizeFailXS DB.empty FS.empty sampleResult).1
      (processAndStore sqliteRepo resizeFailXS DB.empty FS.empty sampleResult).2.1
      "AAPL" .s = .error "logo status is not processed" := by
  decide

/-- C1 amended: on a per-size normalization failure (at least one size
fails) for a record that is absent or not yet processed, processAndStore
still writes the blobs of the sizes that succeeded, sets the record status
to failed with the aggregated error message, and returns a processing
error to the caller; but the size-availability flags are left exactly as
they were (the flag-marking loop runs only when every size succeeds), so
the succeeded sizes are not servable through the flag-gated read paths. -/
theorem C1_partial_failure_amended (resize : Resizer) (db : DB) (fs : FS) (r : LogoResult)
    (hlook : db.getBySymbol r.symbol = .error .errNotFound ∨
      ∃ lg, db.getBySymbol r.symbol = .ok lg ∧ lg.status ≠ .processed)
    (hfail : ∃ sz ∈ AllSizes, exOk (resize r.imageData (SizePixels sz)) = false) :
    (∃ msg, (processAndStore sqliteRepo resize db fs r).2.2 =
        .error ("processing: " ++ msg) ∧
      ((processAndStore sqliteRepo resize db fs r).1).statusOf r.symbol = some .failed ∧
      ((processAndStore sqliteRepo resize db fs r).1).errMsgOf r.symbol = some (some msg)) ∧
    (∀ sz b, sz ∈ AllSizes → resize r.imageData (SizePixels sz) = .ok b →
      ((processAndStore sqliteRepo resize db fs r).2.1).read r.symbol sz = .ok b) ∧
    (∀ sz, ((processAndStore sqliteRepo resize db fs r).1).flagOf r.symbol sz =
      db.flagOf r.symbol sz) := by
  cases hp : (ProcessAll resize fs r.symbol r.imageData).2.2 with
  | none =>
    exfalso
    obtain ⟨sz, hsz, hbad⟩ := hfail
    have := (ProcessAll_err_none_iff resize fs r.symbol r.imageData).mp hp sz hsz
    rw [this] at hbad
    cases hbad
  | some msg =>
    have hmsg := ProcessAll_err_some resize fs r.symbol r.imageData msg hp
    have hne : msg ≠ "" := by
      rw [hmsg]
      exact processing_errors_ne_empty _
    have hreads : ∀ sz b, sz ∈ AllSizes → resize r.imageData (SizePixels sz) = .ok b →
        ((ProcessAll resize fs r.symbol r.imageData).2.1).read r.symbol sz = .ok b := by
      intro sz b hsz hok
      rw [ProcessAll_fs]
      exact processSizes_read_ok resize r.symbol r.imageData fs AllSizes sz b
        (by decide) hsz hok
    rcases hlook with hg | ⟨lg, hg, hst⟩
    · rw [processAndStore_notFound resize db fs r hg,
        processPhase_sqlite_fail resize _ fs r msg hp]
      have hrowed : (((DB.mk (db.logos ++ [newPendingLogo r]))).statusOf r.symbol).isSome := by
        rw [show r.symbol = (newPendingLogo r).symbol from rfl,
          statusOf_append_self db (newPendingLogo r) hg]
        rfl
      refine ⟨⟨msg, rfl, ?_, ?_⟩, hreads, ?_⟩
      · exact statusOf_setStatus_self _ r.symbol .failed msg hrowed
      · exact errMsgOf_setStatus_self _ r.symbol .failed msg hne hrowed
      · intro sz
        rw [flagOf_setStatus]
        have h1 : ((DB.mk (db.logos ++ [newPendingLogo r]))).flagOf r.symbol sz
            = (newPendingLogo r).hasSize sz :=
          flagOf_append_self db (newPendingLogo r) sz hg
        rw [h1, hasSize_newPendingLogo]
        have h2 : db.flagOf r.symbol sz = false := by
          unfold DB.flagOf
          rw [hg]
        rw [h2]
    · rw [processAndStore_notProcessed resize db fs r lg hg hst,
        processPhase_sqlite_fail resize db fs r msg hp]
      have hrowed := statusOf_isSome_of_ok db r.symbol lg hg
      refine ⟨⟨msg, rfl, ?_, ?_⟩, hreads, ?_⟩
      · exact statusOf_setStatus_self db r.symbol .failed msg hrowed
      · exact errMsgOf_setStatus_self db r.symbol .failed msg hne hrowed
      · intro sz
        rw [flagOf_setStatus]

theorem C1_partial_failure_amended_witness :
    (DB.empty.getBySymbol "AAPL" = .error .errNotFound ∨
      ∃ lg, DB.empty.getBySymbol "AAPL" = .ok lg ∧ lg.status ≠ .processed) ∧
    (∃ sz ∈ AllSizes, exOk (resizeFailXS sampleResult.imageData (SizePixels sz)) = false) ∧
    (∀ sz, ((processAndStore sqliteRepo resizeFailXS DB.empty FS.empty
        sampleResult).1).flagOf "AAPL" sz = DB.empty.flagOf "AAPL" sz) :=
  ⟨Or.inl (by decide), ⟨.xs, by decide, by decide⟩,
   (C1_partial_failure_amended resizeFailXS DB.empty FS.empty sampleResult
      (Or.inl (by decide)) ⟨.xs, by decide, by decide⟩).2.2⟩


/-! ## Claim C8 -/

/-- The predicate of the claim's wording, for comparison with the code:
after stripping an optional leading hash, the string consists of exactly 6
hexadecimal digits. -/
def specSixHexDigits (s : String) : Bool :=
  let t := goTrimPfx s "#"
  t.length == 6 && t.data.all isHexDig

theorem hex_not_space (c : Char) (h : isHexDig c = true) : goFmtIsSpace c = false := by
  simp only [isHexDig, Bool.or_eq_true, Bool.and_eq_true, decide_eq_true_eq] at h
  simp only [goFmtIsSpace, Bool.or_eq_false_iff, Bool.and_eq_false_iff,
    decide_eq_false_iff_not, Nat.not_le, beq_eq_false_iff_ne, ne_eq]
  omega

theorem scanHexGroup_two (c1 c2 : Char) (rest : List Char)
    (h1 : isHexDig c1 = true) (h2 : isHexDig c2 = true) :
    scanHexGroup (c1 :: c2 :: rest) = some (hexDigVal c1 * 16 + hexDigVal c2, rest) := by
  have hs1 : goFmtIsSpace c1 = false := hex_not_space c1 h1
  have hskip : skipSpaceW (c1 :: c2 :: rest) 2 = (c1 :: c2 :: rest, 2) := by
    simp [skipSpaceW, hs1]
  have hdig : scanHexDigits (c1 :: c2 :: rest) 2 0 0
      = (hexDigVal c1 * 16 + hexDigVal c2, 2, rest) := by
    simp [scanHexDigits, h1, h2]
  simp [scanHexGroup, hskip, hdig]

theorem exists_six_of_length (l : List Char) (h : l.length = 6) :
    ∃ a b c d e f, l = [a, b, c, d, e, f] :=
  match l, h with
  | [a, b, c, d, e, f], _ => ⟨a, b, c, d, e, f, rfl⟩

/-- C8 counterexample: the string 12345z is not six hexadecimal digits,
yet parseHexColor accepts it (fmt.Sscanf reads the third two-digit group
greedily as the single digit 5 and ignores the trailing z), so
ApplyBackground does not fail with an InvalidColor error on it — refuting
the claimed exactly-when characterization. -/
theorem C8_counterexample :
    specSixHexDigits "12345z" = false ∧
    parseHexColor "12345z" = .ok (18, 52, 5) ∧
    ApplyBackground (fun img _ => .ok img) [9] "12345z" = .ok [9] := by
  decide

/-- C8 amended: every string that is exactly 6 hexadecimal digits after
stripping an optional leading hash is accepted by ApplyBackground (so an
InvalidColor failure occurs only on strings that are not 6 hex digits),
but the converse direction fails: some non-6-hex-digit strings are also
accepted, for example when the greedy hex scan succeeds early. The claim's
concrete examples hold: the string fff fails with the invalid-color error,
and the hash-prefixed form of a color behaves identically to the bare
form. -/
theorem C8_applyBackground_amended :
    (∀ s : String, specSixHexDigits s = true →
      ∃ rgb, parseHexColor s = .ok rgb ∧
        ∀ (process : Blob → Nat × Nat × Nat → Except String Blob) (img : Blob),
          ApplyBackground process img s = process img rgb) ∧
    (∀ s : String, exOk (parseHexColor s) = false → specSixHexDigits s = false) ∧
    (∀ (process : Blob → Nat × Nat × Nat → Except String Blob) (img : Blob),
      ApplyBackground process img "fff" =
        .error "invalid hex color: fff (expected 6 characters)") ∧
    (∀ (process : Blob → Nat × Nat × Nat → Except String Blob) (img : Blob),
      ApplyBackground process img "#00ff00" = ApplyBackground process img "00ff00") := by
  have main : ∀ s : String, specSixHexDigits s = true →
      ∃ rgb, parseHexColor s = .ok rgb ∧
        ∀ (process : Blob → Nat × Nat × Nat → Except String Blob) (img : Blob),
          ApplyBackground process img s = process img rgb := by
    intro s hspec
    simp only [specSixHexDigits, Bool.and_eq_true, beq_iff_eq, List.all_eq_true] at hspec
    obtain ⟨hlen, hhex⟩ := hspec
    have hlen' : (goTrimPfx s "#").data.length = 6 := hlen
    obtain ⟨a, b, c, d, e, f, hl⟩ := exists_six_of_length _ hlen'
    have ha : isHexDig a = true := hhex a (by rw [hl]; simp)
    have hb : isHexDig b = true := hhex b (by rw [hl]; simp)
    have hc : isHexDig c = true := hhex c (by rw [hl]; simp)
    have hd : isHexDig d = true := hhex d (by rw [hl]; simp)
    have he : isHexDig e = true := hhex e (by rw [hl]; simp)
    have hf : isHexDig f = true := hhex f (by rw [hl]; simp)
    have hscan : sscanfHex3 (goTrimPfx s "#") =
        some (hexDigVal a * 16 + hexDigVal b, hexDigVal c * 16 + hexDigVal d,
          hexDigVal e * 16 + hexDigVal f) := by
      have htl : (goTrimPfx s "#").toList = [a, b, c, d, e, f] := hl
      simp only [sscanfHex3, htl, scanHexGroup_two a b [c, d, e, f] ha hb,
        scanHexGroup_two c d [e, f] hc hd, scanHexGroup_two e f [] he hf]
    refine ⟨(hexDigVal a * 16 + hexDigVal b, hexDigVal c * 16 + hexDigVal d,
      hexDigVal e * 16 + hexDigVal f), ?_, ?_⟩
    · unfold parseHexColor
      have : ¬ ((goTrimPfx s "#").length ≠ 6) := by
        rw [show (goTrimPfx s "#").length = (goTrimPfx s "#").data.length from rfl, hlen']
        omega
      rw [if_neg this, hscan]
    · intro process img
      unfold ApplyBackground parseHexColor
      have : ¬ ((goTrimPfx s "#").length ≠ 6) := by
        rw [show (goTrimPfx s "#").length = (goTrimPfx s "#").data.length from rfl, hlen']
        omega
      rw [if_neg this, hscan]
  refine ⟨main, ?_, ?_, ?_⟩
  · intro s hfailed
    by_contra hspec
    rw [Bool.not_eq_false] at hspec
    obtain ⟨rgb, hok, _⟩ := main s hspec
    rw [hok] at hfailed
    cases hfailed
  · intro process img
    unfold ApplyBackground
    rw [show parseHexColor "fff" =
      .error "invalid hex color: fff (expected 6 characters)" from by decide]
  · intro process img
    unfold ApplyBackground
    rw [show parseHexColor "#00ff00" = .ok (0, 255, 0) from by decide,
      show parseHexColor "00ff00" = .ok (0, 255, 0) from by decide]

theorem C8_applyBackground_amended_witness :
    specSixHexDigits "a1B2c3" = true ∧
    ApplyBackground (fun img _ => .ok img) [4] "a1B2c3" = .ok [4] ∧
    exOk (parseHexColor "zz0000") = false ∧ specSixHexDigits "zz0000" = false := by
  refine ⟨by decide, ?_, by decide,
    C8_applyBackground_amended.2.1 "zz0000" (by decide)⟩
  obtain ⟨rgb, hok, happ⟩ := C8_applyBackground_amended.1 "a1B2c3" (by decide)
  rw [happ (fun img _ => .ok img) [4]]


/-! ## Lemmas about the bulk-import candidate loop -/

theorem importLoop_no_cancel {σ : Type} (download : Downloader) (cb : ImportCb σ)
    (repo : String) (entries : List TreeEntry) (ctx : Ctx) (st : σ) (stats : ImportStats)
    (h : entries.countP isCandidate ≤ ctx.remaining) :
    (importLoop download cb repo entries ctx st stats).1.total
        = stats.total + entries.countP isCandidate ∧
    (importLoop download cb repo entries ctx st stats).2.2.2 = none := by
  induction entries generalizing ctx st stats with
  | nil => simp [importLoop, List.countP_nil]
  | cons e rest ih =>
    cases hcand : isCandidate e with
    | false =>
      have hcount : (e :: rest).countP isCandidate = rest.countP isCandidate := by
        simp [List.countP_cons, hcand]
      rw [hcount] at h ⊢
      simpa [importLoop, hcand] using ih ctx st stats h
    | true =>
      have hcount : (e :: rest).countP isCandidate = rest.countP isCandidate + 1 := by
        simp [List.countP_cons, hcand]
      rw [hcount] at h ⊢
      obtain ⟨rem⟩ := ctx
      cases rem with
      | zero => simp at h
      | succ n =>
        have hrest : rest.countP isCandidate ≤ (⟨n⟩ : Ctx).remaining := by
          simpa using Nat.le_of_succ_le_succ h
        cases hdl : download (ghRawEntryURL repo e.path) with
        | error err =>
          simp only [importLoop, hcand, Ctx.check, hdl, if_true]
          have hh := ih ⟨n⟩ st
            { stats with
              total := stats.total + 1
              failed := stats.failed + 1
              errors := stats.errors ++
                [candidateSymbol e.path ++ ": download failed: " ++ err] } hrest
          exact ⟨hh.1.trans (by
            show stats.total + 1 + rest.countP isCandidate
              = stats.total + (rest.countP isCandidate + 1)
            omega), hh.2⟩
        | ok data =>
          simp only [importLoop, hcand, Ctx.check, hdl, if_true]
          cases hcb : (cb st
              { symbol := candidateSymbol e.path
                imageData := data
                source := "github:" ++ repo
                originalURL := ghRawEntryURL repo e.path }).2 with
          | some err =>
            simp only [hcb]
            cases hex : goContains err "already exists" with
            | true =>
              have hh := ih ⟨n⟩ (cb st
                  { symbol := candidateSymbol e.path
                    imageData := data
                    source := "github:" ++ repo
                    originalURL := ghRawEntryURL repo e.path }).1
                { stats with
                  total := stats.total + 1
                  skipped := stats.skipped + 1 } hrest
              exact ⟨hh.1.trans (by
                show stats.total + 1 + rest.countP isCandidate
                  = stats.total + (rest.countP isCandidate + 1)
                omega), hh.2⟩
            | false =>
              have hh := ih ⟨n⟩ (cb st
                  { symbol := candidateSymbol e.path
                    imageData := data
                    source := "github:" ++ repo
                    originalURL := ghRawEntryURL repo e.path }).1
                { stats with
                  total := stats.total + 1
                  failed := stats.failed + 1
                  errors := stats.errors ++ [candidateSymbol e.path ++ ": " ++ err] } hrest
              exact ⟨hh.1.trans (by
                show stats.total + 1 + rest.countP isCandidate
                  = stats.total + (rest.countP isCandidate + 1)
                omega), hh.2⟩
          | none =>
            simp only [hcb]
            have hh := ih ⟨n⟩ (cb st
                { symbol := candidateSymbol e.path
                  imageData := data
                  source := "github:" ++ repo
                  originalURL := ghRawEntryURL repo e.path }).1
              { stats with
                total := stats.total + 1
                imported := stats.imported + 1 } hrest
            exact ⟨hh.1.trans (by
              show stats.total + 1 + rest.countP isCandidate
                = stats.total + (rest.countP isCandidate + 1)
              omega), hh.2⟩

theorem importLoop_cancel {σ : Type} (download : Downloader) (cb : ImportCb σ)
    (repo : String) (entries : List TreeEntry) (ctx : Ctx) (st : σ) (stats : ImportStats)
    (h : ctx.remaining < entries.countP isCandidate) :
    (importLoop download cb repo entries ctx st stats).2.2.2 = some ctxCanceledErr ∧
    (importLoop download cb repo entries ctx st stats).1.total
      = stats.total + ctx.remaining + 1 := by
  induction entries generalizing ctx st stats with
  | nil => simp [List.countP_nil] at h
  | cons e rest ih =>
    cases hcand : isCandidate e with
    | false =>
      have hcount : (e :: rest).countP isCandidate = rest.countP isCandidate := by
        simp [List.countP_cons, hcand]
      rw [hcount] at h
      simpa [importLoop, hcand] using ih ctx st stats h
    | true =>
      have hcount : (e :: rest).countP isCandidate = rest.countP isCandidate + 1 := by
        simp [List.countP_cons, hcand]
      rw [hcount] at h
      obtain ⟨rem⟩ := ctx
      cases rem with
      | zero =>
        refine ⟨?_, ?_⟩ <;> simp [importLoop, hcand, Ctx.check]
      | succ n =>
        have hrest : (⟨n⟩ : Ctx).remaining < rest.countP isCandidate := by
          simpa using Nat.lt_of_succ_lt_succ h
        cases hdl : download (ghRawEntryURL repo e.path) with
        | error err =>
          simp only [importLoop, hcand, Ctx.check, hdl, if_true]
          have hh := ih ⟨n⟩ st
            { stats with
              total := stats.total + 1
              failed := stats.failed + 1
              errors := stats.errors ++
                [candidateSymbol e.path ++ ": download failed: " ++ err] } hrest
          exact ⟨hh.1, hh.2.trans (by
            show stats.total + 1 + n + 1 = stats.total + (n + 1) + 1
            omega)⟩
        | ok data =>
          simp only [importLoop, hcand, Ctx.check, hdl, if_true]
          cases hcb : (cb st
              { symbol := candidateSymbol e.path
                imageData := data
                source := "github:" ++ repo
                originalURL := ghRawEntryURL repo e.path }).2 with
          | some err =>
            simp only [hcb]
            cases hex : goContains err "already exists" with
            | true =>
              have hh := ih ⟨n⟩ (cb st
                  { symbol := candidateSymbol e.path
                    imageData := data
                    source := "github:" ++ repo
                    originalURL := ghRawEntryURL repo e.path }).1
                { stats with
                  total := stats.total + 1
                  skipped := stats.skipped + 1 } hrest
              exact ⟨hh.1, hh.2.trans (by
                show stats.total + 1 + n + 1 = stats.total + (n + 1) + 1
                omega)⟩
            | false =>
              have hh := ih ⟨n⟩ (cb st
                  { symbol := candidateSymbol e.path
                    imageData := data
                    source := "github:" ++ repo
                    originalURL := ghRawEntryURL repo e.path }).1
                { stats with
                  total := stats.total + 1
                  failed := stats.failed + 1
                  errors := stats.errors ++ [candidateSymbol e.path ++ ": " ++ err] } hrest
              exact ⟨hh.1, hh.2.trans (by
                show stats.total + 1 + n + 1 = stats.total + (n + 1) + 1
                omega)⟩
          | none =>
            simp only [hcb]
            have hh := ih ⟨n⟩ (cb st
                { symbol := candidateSymbol e.path
                  imageData := data
                  source := "github:" ++ repo
                  originalURL := ghRawEntryURL repo e.path }).1
              { stats with
                total := stats.total + 1
                imported := stats.imported + 1 } hrest
            exact ⟨hh.1, hh.2.trans (by
              show stats.total + 1 + n + 1 = stats.total + (n + 1) + 1
              omega)⟩


/-! ## Claims C5 and C3: fixtures -/

/-- The example tree listing of the claim: two ticker icons and one
unrelated file. -/
def listing5 : List TreeEntry :=
  [⟨"ticker_icons/AAPL.png", "blob"⟩, ⟨"ticker_icons/MSFT.png", "blob"⟩,
   ⟨"README.md", "blob"⟩]

/-- A listing with exactly the two ticker-icon candidates. -/
def listingTwo : List TreeEntry :=
  [⟨"ticker_icons/AAPL.png", "blob"⟩, ⟨"ticker_icons/MSFT.png", "blob"⟩]

/-- A store in which AAPL and MSFT are already processed. -/
def dbBothProcessed : DB :=
  ⟨[{ symbol := "AAPL", companyName := "", source := "github:r", originalURL := "u",
      status := .processed },
    { symbol := "MSFT", companyName := "", source := "github:r", originalURL := "u",
      status := .processed }]⟩

/-- A bulk-import callback with no state that always succeeds. -/
def cbUnitOk : ImportCb Unit := fun st _ => (st, none)

/-- The LogoResult handed to the callback for one bulk-import candidate. -/
def candidateResult (repo : String) (e : TreeEntry) (data : Blob) : LogoResult :=
  { symbol := candidateSymbol e.path, imageData := data,
    source := "github:" ++ repo, originalURL := ghRawEntryURL repo e.path }

/-! ## Claim C5 -/

/-- C5: bulk import counts and processes exactly the tree blobs under
ticker_icons/ with the .png extension — on the example listing with
AAPL.png, MSFT.png and an unrelated file, Total is 2 for every download and
callback behaviour — and each candidate's outcome is classified: a download
error counts as failed with a recorded message, a callback error containing
"already exists" counts as skipped, any other callback error counts as
failed with a recorded message, and callback success counts as imported; in
particular re-running the import with both symbols already processed yields
Skipped = 2 and Imported = 0. -/
theorem C5_bulk_import_classification :
    (∀ (σ : Type) (fetchTree : String → Except String (List TreeEntry))
        (download : Downloader) (cb : ImportCb σ) (repo : String) (n : Nat) (st : σ),
        fetchTree repo = .ok listing5 →
        (importFromRepo fetchTree download cb repo ⟨n + 2⟩ st).1.total = 2 ∧
        (importFromRepo fetchTree download cb repo ⟨n + 2⟩ st).2.2.2 = none) ∧
    (∀ (σ : Type) (download : Downloader) (cb : ImportCb σ) (repo : String)
        (e : TreeEntry) (n : Nat) (st : σ) (err : String),
        isCandidate e = true →
        download (ghRawEntryURL repo e.path) = .error err →
        (importLoop download cb repo [e] ⟨n + 1⟩ st {}).1 =
          { total := 1, failed := 1,
            errors := [candidateSymbol e.path ++ ": download failed: " ++ err] }) ∧
    (∀ (σ : Type) (download : Downloader) (cb : ImportCb σ) (repo : String)
        (e : TreeEntry) (n : Nat) (st : σ) (data : Blob) (err : String),
        isCandidate e = true →
        download (ghRawEntryURL repo e.path) = .ok data →
        (cb st (candidateResult repo e data)).2 = some err →
        goContains err "already exists" = true →
        (importLoop download cb repo [e] ⟨n + 1⟩ st {}).1 = { total := 1, skipped := 1 }) ∧
    (∀ (σ : Type) (download : Downloader) (cb : ImportCb σ) (repo : String)
        (e : TreeEntry) (n : Nat) (st : σ) (data : Blob) (err : String),
        isCandidate e = true →
        download (ghRawEntryURL repo e.path) = .ok data →
        (cb st (candidateResult repo e data)).2 = some err →
        goContains err "already exists" = false →
        (importLoop download cb repo [e] ⟨n + 1⟩ st {}).1 =
          { total := 1, failed := 1, errors := [candidateSymbol e.path ++ ": " ++ err] }) ∧
    (∀ (σ : Type) (download : Downloader) (cb : ImportCb σ) (repo : String)
        (e : TreeEntry) (n : Nat) (st : σ) (data : Blob),
        isCandidate e = true →
        download (ghRawEntryURL repo e.path) = .ok data →
        (cb st (candidateResult repo e data)).2 = none →
        (importLoop download cb repo [e] ⟨n + 1⟩ st {}).1 = { total := 1, imported := 1 }) ∧
    ((importFromRepo (fun _ => .ok listing5) (fun _ => .ok [9])
        (adminImportCallback resizeOkId) "repo" ⟨100⟩ (dbBothProcessed, FS.empty)).1 =
      { total := 2, imported := 0, skipped := 2, failed := 0, errors := [] }) := by
  refine ⟨?_, ?_, ?_, ?_, ?_, by decide⟩
  · intro σ fetchTree download cb repo n st hft
    have hcount : listing5.countP isCandidate = 2 := by decide
    have hh := importLoop_no_cancel download cb repo listing5 ⟨n + 2⟩ st {}
      (by rw [hcount]; show 2 ≤ n + 2; omega)
    have heq : importFromRepo fetchTree download cb repo ⟨n + 2⟩ st
        = importLoop download cb repo listing5 ⟨n + 2⟩ st {} := by
      unfold importFromRepo
      rw [hft]
    rw [heq]
    exact ⟨hh.1.trans (by rw [hcount]), hh.2⟩
  · intro σ download cb repo e n st err hcand hdl
    simp only [importLoop, hcand, Ctx.check, hdl, if_true]
    simp [ImportStats.mk.injEq]
  · intro σ download cb repo e n st data err hcand hdl hcb hex
    simp only [candidateResult] at hcb
    simp only [importLoop, hcand, Ctx.check, hdl, if_true, hcb, hex]
    simp [ImportStats.mk.injEq]
  · intro σ download cb repo e n st data err hcand hdl hcb hex
    simp only [candidateResult] at hcb
    simp only [importLoop, hcand, Ctx.check, hdl, if_true, hcb, hex]
    simp [ImportStats.mk.injEq]
  · intro σ download cb repo e n st data hcand hdl hcb
    simp only [candidateResult] at hcb
    simp only [importLoop, hcand, Ctx.check, hdl, if_true, hcb]
    simp [ImportStats.mk.injEq]

theorem C5_bulk_import_classification_witness :
    (importFromRepo (fun _ => .ok listing5) (fun _ => .ok [9]) cbUnitOk "repo"
        ⟨2⟩ ()).1.total = 2 ∧
    (importLoop (fun _ => .ok [9]) cbUnitOk "repo" [⟨"ticker_icons/AAPL.png", "blob"⟩]
        ⟨1⟩ () {}).1 = { total := 1, imported := 1 } :=
  ⟨(C5_bulk_import_classification.1 Unit (fun _ => .ok listing5) (fun _ => .ok [9])
      cbUnitOk "repo" 0 () rfl).1,
   C5_bulk_import_classification.2.2.2.2.1 Unit (fun _ => .ok [9]) cbUnitOk "repo"
     ⟨"ticker_icons/AAPL.png", "blob"⟩ 0 () [9] (by decide) rfl rfl⟩

/-! ## Claim C3 -/

/-- C3 counterexample: with one repo holding two candidates and a context
cancelled at the second per-candidate check, importFromRepo does return its
partial stats (Total = 2) together with the cancellation error — but
BulkImport discards those counters, records the cancellation only as the
error string "r1: context canceled", and returns a nil error result, not
the cancellation error the claim asserts. -/
theorem C3_counterexample :
    (importFromRepo (fun _ => .ok listingTwo) (fun _ => .ok [9]) cbUnitOk "r1"
        ⟨1⟩ ()).1.total = 2 ∧
    (importFromRepo (fun _ => .ok listingTwo) (fun _ => .ok [9]) cbUnitOk "r1"
        ⟨1⟩ ()).2.2.2 = some ctxCanceledErr ∧
    (ghBulkImport ["r1"] (fun _ => .ok listingTwo) (fun _ => .ok [9]) cbUnitOk
        ⟨1⟩ ()).1 =
      { total := 0, imported := 0, skipped := 0, failed := 0,
        errors := ["r1: " ++ ctxCanceledErr] } ∧
    (ghBulkImport ["r1"] (fun _ => .ok listingTwo) (fun _ => .ok [9]) cbUnitOk
        ⟨1⟩ ()).2.2.2 = none := by
  decide

/-- C3 amended: when the cancellation signal fires at a per-candidate
check, the per-repo loop importFromRepo returns the statistics accumulated
up to that point (the interrupted candidate is already counted in Total)
together with the cancellation error; BulkImport, however, always returns a
nil error result — it records the repo's failure as the error string
"repo: context canceled" and discards that repo's partial counters. -/
theorem C3_cancellation_amended :
    (∀ (σ : Type) (repos : List String)
        (fetchTree : String → Except String (List TreeEntry))
        (download : Downloader) (cb : ImportCb σ) (ctx : Ctx) (st : σ),
        (ghBulkImport repos fetchTree download cb ctx st).2.2.2 = none) ∧
    (∀ (σ : Type) (fetchTree : String → Except String (List TreeEntry))
        (download : Downloader) (cb : ImportCb σ) (repo : String) (ctx : Ctx) (st : σ)
        (entries : List TreeEntry),
        fetchTree repo = .ok entries →
        ctx.remaining < entries.countP isCandidate →
        (importFromRepo fetchTree download cb repo ctx st).2.2.2 = some ctxCanceledErr ∧
        (importFromRepo fetchTree download cb repo ctx st).1.total = ctx.remaining + 1) ∧
    ((ghBulkImport ["r1"] (fun _ => .ok listingTwo) (fun _ => .ok [9]) cbUnitOk
        ⟨1⟩ ()).1 =
      { total := 0, imported := 0, skipped := 0, failed := 0,
        errors := ["r1: " ++ ctxCanceledErr] }) := by
  refine ⟨fun σ repos fetchTree download cb ctx st => rfl, ?_, by decide⟩
  intro σ fetchTree download cb repo ctx st entries hft hlt
  have heq : importFromRepo fetchTree download cb repo ctx st
      = importLoop download cb repo entries ctx st {} := by
    unfold importFromRepo
    rw [hft]
  rw [heq]
  have hh := importLoop_cancel download cb repo entries ctx st {} hlt
  exact ⟨hh.1, hh.2.trans (by show 0 + ctx.remaining + 1 = ctx.remaining + 1; omega)⟩

theorem C3_cancellation_amended_witness :
    ((fun _ : String => (.ok listingTwo : Except String (List TreeEntry))) "r1"
        = .ok listingTwo) ∧
    (⟨1⟩ : Ctx).remaining < listingTwo.countP isCandidate ∧
    (importFromRepo (fun _ => .ok listingTwo) (fun _ => .ok [9]) cbUnitOk "r1"
        ⟨1⟩ ()).2.2.2 = some ctxCanceledErr :=
  ⟨rfl, by decide,
   (C3_cancellation_amended.2.1 Unit (fun _ => .ok listingTwo) (fun _ => .ok [9])
      cbUnitOk "r1" ⟨1⟩ () listingTwo rfl (by decide)).1⟩


/-! ## Claim C6 -/

theorem anthropicFindAux_calls_le (backend : Nat → Except String AMessage) (symbol : String) :
    ∀ fuel calls, (anthropicFindAux backend symbol calls fuel).2 ≤ calls + fuel := by
  intro fuel
  induction fuel with
  | zero => intro calls; simp [anthropicFindAux]
  | succ n ih =>
    intro calls
    cases hb : backend calls with
    | error e =>
      have heq : (anthropicFindAux backend symbol calls (n + 1)).2 = calls + 1 := by
        simp [anthropicFindAux, hb]
      omega
    | ok msg =>
      cases hf : findSubmit msg.content with
      | some input =>
        cases hurl : (input.logoURL == "") with
        | true =>
          have heq : (anthropicFindAux backend symbol calls (n + 1)).2 = calls + 1 := by
            simp [anthropicFindAux, hb, hf, hurl]
          omega
        | false =>
          have heq : (anthropicFindAux backend symbol calls (n + 1)).2 = calls + 1 := by
            simp [anthropicFindAux, hb, hf, hurl]
          omega
      | none =>
        cases hstop : (msg.stopReason == "end_turn") with
        | true =>
          have heq : (anthropicFindAux backend symbol calls (n + 1)).2 = calls + 1 := by
            simp [anthropicFindAux, hb, hf, hstop]
          omega
        | false =>
          have heq : (anthropicFindAux backend symbol calls (n + 1)).2
              = (anthropicFindAux backend symbol (calls + 1) n).2 := by
            simp [anthropicFindAux, hb, hf, hstop]
          have hih := ih (calls + 1)
          omega

theorem openaiFindAux_calls_le (backend : Nat → Except String OResponse) (symbol : String) :
    ∀ fuel calls, (openaiFindAux backend symbol calls fuel).2 ≤ calls + fuel := by
  intro fuel
  induction fuel with
  | zero => intro calls; simp [openaiFindAux]
  | succ n ih =>
    intro calls
    cases hb : backend calls with
    | error e =>
      have heq : (openaiFindAux backend symbol calls (n + 1)).2 = calls + 1 := by
        simp [openaiFindAux, hb]
      omega
    | ok resp =>
      cases hcs : resp.choices with
      | nil =>
        have heq : (openaiFindAux backend symbol calls (n + 1)).2 = calls + 1 := by
          simp [openaiFindAux, hb, hcs]
        omega
      | cons choice rest =>
        cases hmt : choice.toolCalls.isEmpty with
        | true =>
          cases hstop : (choice.finishReason == "stop") with
          | true =>
            have heq : (openaiFindAux backend symbol calls (n + 1)).2 = calls + 1 := by
              simp [openaiFindAux, hb, hcs, hmt, hstop]
            omega
          | false =>
            have heq : (openaiFindAux backend symbol calls (n + 1)).2
                = (openaiFindAux backend symbol (calls + 1) n).2 := by
              simp [openaiFindAux, hb, hcs, hmt, hstop]
            have hih := ih (calls + 1)
            omega
        | false =>
          cases hfs : findSubmitCall choice.toolCalls with
          | some input =>
            cases hurl : (input.logoURL == "") with
            | true =>
              have heq : (openaiFindAux backend symbol calls (n + 1)).2 = calls + 1 := by
                simp [openaiFindAux, hb, hcs, hmt, hfs, hurl]
              omega
            | false =>
              have heq : (openaiFindAux backend symbol calls (n + 1)).2 = calls + 1 := by
                simp [openaiFindAux, hb, hcs, hmt, hfs, hurl]
              omega
          | none =>
            have heq : (openaiFindAux backend symbol calls (n + 1)).2
                = (openaiFindAux backend symbol (calls + 1) n).2 := by
              simp [openaiFindAux, hb, hcs, hmt, hfs]
            have hih := ih (calls + 1)
            omega

theorem anthropicFindAux_toolsOnly (backend : Nat → Except String AMessage)
    (symbol : String)
    (h : ∀ i, ∃ msg, backend i = .ok msg ∧ findSubmit msg.content = none ∧
      (msg.stopReason == "end_turn") = false) :
    ∀ fuel calls, anthropicFindAux backend symbol calls fuel =
      (.error (.exceededMaxTurns symbol), calls + fuel) := by
  intro fuel
  induction fuel with
  | zero => intro calls; simp [anthropicFindAux]
  | succ n ih =>
    intro calls
    obtain ⟨msg, hb, hf, hstop⟩ := h calls
    have heq : anthropicFindAux backend symbol calls (n + 1)
        = anthropicFindAux backend symbol (calls + 1) n := by
      simp [anthropicFindAux, hb, hf, hstop]
    rw [heq, ih (calls + 1)]
    congr 1
    omega

theorem openaiFindAux_toolsOnly (backend : Nat → Except String OResponse)
    (symbol : String)
    (h : ∀ i, ∃ choice rest, backend i = .ok ⟨choice :: rest⟩ ∧
      choice.toolCalls.isEmpty = false ∧ findSubmitCall choice.toolCalls = none) :
    ∀ fuel calls, openaiFindAux backend symbol calls fuel =
      (.error (.exceededMaxTurns symbol), calls + fuel) := by
  intro fuel
  induction fuel with
  | zero => intro calls; simp [openaiFindAux]
  | succ n ih =>
    intro calls
    obtain ⟨choice, rest, hb, hmt, hfs⟩ := h calls
    have heq : openaiFindAux backend symbol calls (n + 1)
        = openaiFindAux backend symbol (calls + 1) n := by
      simp [openaiFindAux, hb, hmt, hfs]
    rw [heq, ih (calls + 1)]
    congr 1
    omega

/-- C6: the agentic loops of both LLM backends make at most 5 backend
calls; a first-turn submission with an empty logo_url fails immediately
with the no-logo-found outcome, and so does a first turn the backend ends
without any tool call (end_turn for the Anthropic client, finish reason
stop with no tool calls for the OpenAI client); a backend invoking only
non-submit tools on every turn fails with the max-turns outcome after
exactly 5 calls; and a valid first-turn submission is parsed into the
structured search result and returned. -/
theorem C6_agent_loop_bounds :
    (∀ (backend : Nat → Except String AMessage) (symbol : String),
      (anthropicFindLogoURL backend symbol).2 ≤ 5) ∧
    (∀ (backend : Nat → Except String OResponse) (symbol : String),
      (openaiFindLogoURL backend symbol).2 ≤ 5) ∧
    (∀ (backend : Nat → Except String AMessage) (symbol : String) (msg : AMessage)
        (input : SubmitInput),
      backend 0 = .ok msg → findSubmit msg.content = some input → input.logoURL = "" →
      anthropicFindLogoURL backend symbol = (.error (.didNotFindURL symbol), 1)) ∧
    (∀ (backend : Nat → Except String AMessage) (symbol : String) (msg : AMessage),
      backend 0 = .ok msg → findSubmit msg.content = none → msg.stopReason = "end_turn" →
      anthropicFindLogoURL backend symbol = (.error (.endedWithoutLogo symbol), 1)) ∧
    (∀ (backend : Nat → Except String AMessage) (symbol : String),
      (∀ i, ∃ msg, backend i = .ok msg ∧ findSubmit msg.content = none ∧
        (msg.stopReason == "end_turn") = false) →
      anthropicFindLogoURL backend symbol = (.error (.exceededMaxTurns symbol), 5)) ∧
    (∀ (backend : Nat → Except String AMessage) (symbol : String) (msg : AMessage)
        (input : SubmitInput),
      backend 0 = .ok msg → findSubmit msg.content = some input → input.logoURL ≠ "" →
      anthropicFindLogoURL backend symbol =
        (.ok { logoURL := input.logoURL, companyName := input.companyName,
               source := input.source, confidence := input.confidence }, 1)) ∧
    (∀ (backend : Nat → Except String OResponse) (symbol : String) (choice : OChoice)
        (rest : List OChoice) (input : SubmitInput),
      backend 0 = .ok ⟨choice :: rest⟩ → choice.toolCalls.isEmpty = false →
      findSubmitCall choice.toolCalls = some input → input.logoURL = "" →
      openaiFindLogoURL backend symbol = (.error (.didNotFindURL symbol), 1)) ∧
    (∀ (backend : Nat → Except String OResponse) (symbol : String) (choice : OChoice)
        (rest : List OChoice),
      backend 0 = .ok ⟨choice :: rest⟩ → choice.toolCalls.isEmpty = true →
      choice.finishReason = "stop" →
      openaiFindLogoURL backend symbol = (.error (.endedWithoutLogo symbol), 1)) ∧
    (∀ (backend : Nat → Except String OResponse) (symbol : String),
      (∀ i, ∃ choice rest, backend i = .ok ⟨choice :: rest⟩ ∧
        choice.toolCalls.isEmpty = false ∧ findSubmitCall choice.toolCalls = none) →
      openaiFindLogoURL backend symbol = (.error (.exceededMaxTurns symbol), 5)) ∧
    (∀ (backend : Nat → Except String OResponse) (symbol : String) (choice : OChoice)
        (rest : List OChoice) (input : SubmitInput),
      backend 0 = .ok ⟨choice :: rest⟩ → choice.toolCalls.isEmpty = false →
      findSubmitCall choice.toolCalls = some input → input.logoURL ≠ "" →
      openaiFindLogoURL backend symbol =
        (.ok { logoURL := input.logoURL, companyName := input.companyName,
               source := input.source, confidence := input.confidence }, 1)) := by
  refine ⟨?_, ?_, ?_, ?_, ?_, ?_, ?_, ?_, ?_, ?_⟩
  · intro backend symbol
    simpa using anthropicFindAux_calls_le backend symbol 5 0
  · intro backend symbol
    simpa using openaiFindAux_calls_le backend symbol 5 0
  · intro backend symbol msg input hb hf hurl
    have hurl' : (input.logoURL == "") = true := by simp [hurl]
    unfold anthropicFindLogoURL
    simp [anthropicFindAux, hb, hf, hurl']
  · intro backend symbol msg hb hf hstop
    have hstop' : (msg.stopReason == "end_turn") = true := by simp [hstop]
    unfold anthropicFindLogoURL
    simp [anthropicFindAux, hb, hf, hstop']
  · intro backend symbol h
    unfold anthropicFindLogoURL
    rw [anthropicFindAux_toolsOnly backend symbol h 5 0]
  · intro backend symbol msg input hb hf hurl
    have hurl' : (input.logoURL == "") = false := by simp [hurl]
    unfold anthropicFindLogoURL
    simp [anthropicFindAux, hb, hf, hurl']
  · intro backend symbol choice rest input hb hmt hfs hurl
    have hurl' : (input.logoURL == "") = true := by simp [hurl]
    unfold openaiFindLogoURL
    simp [openaiFindAux, hb, hmt, hfs, hurl']
  · intro backend symbol choice rest hb hmt hstop
    have hstop' : (choice.finishReason == "stop") = true := by simp [hstop]
    unfold openaiFindLogoURL
    simp [openaiFindAux, hb, hmt, hstop']
  · intro backend symbol h
    unfold openaiFindLogoURL
    rw [openaiFindAux_toolsOnly backend symbol h 5 0]
  · intro backend symbol choice rest input hb hmt hfs hurl
    have hurl' : (input.logoURL == "") = false := by simp [hurl]
    unfold openaiFindLogoURL
    simp [openaiFindAux, hb, hmt, hfs, hurl']

/-- A backend that only ever calls the web-search tool. -/
def backendSearchOnly : Nat → Except String AMessage :=
  fun _ => .ok { content := [.toolUse "web_search" {}], stopReason := "tool_use" }

/-- A backend that ends its first turn with no tool call. -/
def backendEndTurn : Nat → Except String AMessage :=
  fun _ => .ok { content := [.other], stopReason := "end_turn" }

theorem C6_agent_loop_bounds_witness :
    anthropicFindLogoURL backendSearchOnly "AAPL"
      = (.error (.exceededMaxTurns "AAPL"), 5) ∧
    anthropicFindLogoURL backendEndTurn "AAPL"
      = (.error (.endedWithoutLogo "AAPL"), 1) :=
  ⟨C6_agent_loop_bounds.2.2.2.2.1 backendSearchOnly "AAPL"
    (fun _ => ⟨{ content := [.toolUse "web_search" {}], stopReason := "tool_use" },
      rfl, rfl, rfl⟩),
   C6_agent_loop_bounds.2.2.2.1 backendEndTurn "AAPL"
     { content := [.other], stopReason := "end_turn" } rfl rfl rfl⟩


/-! ## Claim C7: helper lemmas -/

theorem Logo.source_setSize (lg : Logo) (sz : LogoSize) : (lg.setSize sz).source = lg.source := by
  cases sz <;> rfl

theorem sourceOf_setStatus (db : DB) (s : String) (st : LogoStatus) (m : String)
    (sym : String) :
    (db.setStatus s st m).sourceOf sym = db.sourceOf sym := by
  unfold DB.sourceOf
  rw [getBySymbol_setStatus]
  cases hg : db.getBySymbol sym with
  | error e => rfl
  | ok lg => by_cases h : lg.symbol == s <;> simp [h, Except.map]

theorem sourceOf_setSize (db : DB) (s : String) (z : LogoSize) (sym : String) :
    (db.setSizeAvailable s z).sourceOf sym = db.sourceOf sym := by
  unfold DB.sourceOf
  rw [getBySymbol_setSize]
  cases hg : db.getBySymbol sym with
  | error e => rfl
  | ok lg => by_cases h : lg.symbol == s <;> simp [h, Logo.source_setSize, Except.map]

theorem sourceOf_markSizes (lst : List (LogoSize × Bool)) (db : DB) (sym0 sym : String) :
    (markSizes sqliteRepo sym0 db lst).sourceOf sym = db.sourceOf sym := by
  induction lst generalizing db with
  | nil => rfl
  | cons p rest ih =>
    cases p with
    | mk size ok? =>
      cases ok? with
      | false =>
        show (markSizes sqliteRepo sym0 db rest).sourceOf sym = db.sourceOf sym
        exact ih db
      | true =>
        show (markSizes sqliteRepo sym0 (db.setSizeAvailable sym0 size) rest).sourceOf sym
          = db.sourceOf sym
        rw [ih, sourceOf_setSize]

theorem sourceOf_append_self (db : DB) (lg : Logo)
    (h : db.getBySymbol lg.symbol = .error .errNotFound) :
    (DB.mk (db.logos ++ [lg])).sourceOf lg.symbol = some lg.source := by
  unfold DB.sourceOf
  rw [getBySymbol_append_self db lg h]

theorem empty_getBySymbol (sym : String) :
    DB.empty.getBySymbol sym = .error .errNotFound := rfl

/-- A fresh ingestion with an always-succeeding resizer: the record ends
processed carrying the result's source, every size's blob equals the source
bytes, and nothing else in the blob store changes. -/
theorem processAndStore_fresh (resize : Resizer)
    (hres : ∀ img px, resize img px = .ok img) (db : DB) (fs : FS) (r0 : LogoResult)
    (hg : db.getBySymbol r0.symbol = .error .errNotFound) :
    (processAndStore sqliteRepo resize db fs r0).2.2 = .ok () ∧
    ((processAndStore sqliteRepo resize db fs r0).1).statusOf r0.symbol = some .processed ∧
    ((processAndStore sqliteRepo resize db fs r0).1).sourceOf r0.symbol = some r0.source ∧
    (∀ sz, sz ∈ AllSizes →
      ((processAndStore sqliteRepo resize db fs r0).2.1).read r0.symbol sz
        = .ok r0.imageData) ∧
    (∀ (sym' : String) (sz' : LogoSize), sym' ≠ r0.symbol →
      ((processAndStore sqliteRepo resize db fs r0).2.1).read sym' sz'
        = fs.read sym' sz') := by
  have hp : (ProcessAll resize fs r0.symbol r0.imageData).2.2 = none :=
    (ProcessAll_err_none_iff resize fs r0.symbol r0.imageData).mpr
      (fun sz _ => by rw [hres]; rfl)
  rw [processAndStore_notFound resize db fs r0 hg,
    processPhase_sqlite_ok resize _ fs r0 hp]
  have hrow : (((DB.mk (db.logos ++ [newPendingLogo r0]))).statusOf r0.symbol).isSome := by
    rw [show r0.symbol = (newPendingLogo r0).symbol from rfl,
      statusOf_append_self db (newPendingLogo r0) hg]
    rfl
  have hrow' : ((markSizes sqliteRepo r0.symbol (DB.mk (db.logos ++ [newPendingLogo r0]))
      (ProcessAll resize fs r0.symbol r0.imageData).1).statusOf r0.symbol).isSome := by
    rw [statusOf_markSizes]
    exact hrow
  refine ⟨rfl, statusOf_setStatus_self _ r0.symbol .processed "" hrow', ?_, ?_, ?_⟩
  · rw [sourceOf_setStatus, sourceOf_markSizes]
    have := sourceOf_append_self db (newPendingLogo r0) hg
    exact this
  · intro sz hsz
    rw [ProcessAll_fs]
    exact processSizes_read_ok resize r0.symbol r0.imageData fs AllSizes sz r0.imageData
      (by decide) hsz (hres r0.imageData (SizePixels sz))
  · intro sym' sz' hne
    rw [ProcessAll_fs]
    exact processSizes_read_preserved resize r0.symbol r0.imageData fs AllSizes sym' sz'
      (Or.inl hne)

/-! ## Claim C7 -/

/-- C7: acquisition tries the repository mirror first — on a mirror hit the
LLM layer is never invoked; on a mirror miss the LLM layer is invoked only
when configured, and when it is absent or also fails the result is the
no-provider-found error; and in the concrete fallback scenario — zero
configured repos, a single LLM backend returning a valid URL whose download
succeeds — GetLogo("ACME") ends with the record processed, sourced as
llm:<provider>, and returns the cached bytes. -/
theorem C7_fallback_ordering :
    (∀ (cfg : ServiceCfg) (symbol : String) (calls : List LLMCall) (r : LogoResult),
      ghGetLogo cfg.repos cfg.ghDownload symbol = .ok r →
      acquire cfg symbol calls = (.ok r, calls, false)) ∧
    (∀ (cfg : ServiceCfg) (symbol : String) (calls : List LLMCall) (e : String),
      ghGetLogo cfg.repos cfg.ghDownload symbol = .error e → cfg.llm = none →
      acquire cfg symbol calls =
        (.error ("no provider found a logo for " ++ symbol), calls, false)) ∧
    (∀ (cfg : ServiceCfg) (symbol : String) (calls : List LLMCall) (e : String)
        (l : LLMCfg) (e2 : String),
      ghGetLogo cfg.repos cfg.ghDownload symbol = .error e → cfg.llm = some l →
      (llmGetLogo l.clients l.limiterWait l.download symbol calls).1 = .error e2 →
      acquire cfg symbol calls =
        (.error ("no provider found a logo for " ++ symbol),
         (llmGetLogo l.clients l.limiterWait l.download symbol calls).2, true)) ∧
    (∀ (cfg : ServiceCfg) (symbol : String) (calls : List LLMCall) (e : String)
        (l : LLMCfg) (r : LogoResult),
      ghGetLogo cfg.repos cfg.ghDownload symbol = .error e → cfg.llm = some l →
      (llmGetLogo l.clients l.limiterWait l.download symbol calls).1 = .ok r →
      acquire cfg symbol calls =
        (.ok r, (llmGetLogo l.clients l.limiterWait l.download symbol calls).2, true)) ∧
    (∀ (p mdl : String) (sr : LogoSearchResult) (dl ghdl : Downloader) (blob : Blob),
      dl sr.logoURL = .ok blob →
      ((serviceGetLogo
          { repos := [], ghDownload := ghdl,
            llm := some { clients := [{ find := fun _ => .ok sr, providerName := p,
                                        modelName := mdl }],
                          limiterWait := fun _ => .ok (), download := dl },
            resize := resizeOkId }
          DB.empty FS.empty [] "ACME" .m).2.1).statusOf "ACME" = some .processed ∧
      ((serviceGetLogo
          { repos := [], ghDownload := ghdl,
            llm := some { clients := [{ find := fun _ => .ok sr, providerName := p,
                                        modelName := mdl }],
                          limiterWait := fun _ => .ok (), download := dl },
            resize := resizeOkId }
          DB.empty FS.empty [] "ACME" .m).2.1).sourceOf "ACME" = some ("llm:" ++ p) ∧
      (serviceGetLogo
          { repos := [], ghDownload := ghdl,
            llm := some { clients := [{ find := fun _ => .ok sr, providerName := p,
                                        modelName := mdl }],
                          limiterWait := fun _ => .ok (), download := dl },
            resize := resizeOkId }
          DB.empty FS.empty [] "ACME" .m).1 = .ok blob) := by
  refine ⟨?_, ?_, ?_, ?_, ?_⟩
  · intro cfg symbol calls r h
    simp only [acquire, h]
  · intro cfg symbol calls e h hllm
    simp only [acquire, h, hllm]
  · intro cfg symbol calls e l e2 h hllm h2
    simp only [acquire, h, hllm, h2]
  · intro cfg symbol calls e l r h hllm h2
    simp only [acquire, h, hllm, h2]
  · intro p mdl sr dl ghdl blob hdl
    set client : LLMClientM :=
      { find := fun _ => .ok sr, providerName := p, modelName := mdl } with hclient
    set cfg : ServiceCfg :=
      { repos := [], ghDownload := ghdl,
        llm := some { clients := [client], limiterWait := fun _ => .ok (), download := dl },
        resize := resizeOkId } with hcfg
    set r0 : LogoResult :=
      { symbol := "ACME", companyName := sr.companyName, imageData := blob,
        source := "llm:" ++ p, originalURL := sr.logoURL } with hr0
    set call0 : LLMCall :=
      { symbol := "ACME", provider := p, model := mdl,
        resultURL := some sr.logoURL, success := true } with hcall0
    have hfind : client.find "ACME" = .ok sr := rfl
    have htry : tryProvider dl client "ACME" = (.ok r0, call0) := by
      simp only [tryProvider, hfind, hdl]
    have hllm : llmGetLogo [client] (fun _ => .ok ()) dl "ACME" []
        = (.ok r0, [call0]) := by
      simp only [llmGetLogo, llmGetLogoAux, htry]
      rfl
    have hgh : ghGetLogo ([] : List String) ghdl "ACME"
        = .error ("logo for ACME not found in any GitHub repo") := rfl
    have hacq : acquire cfg "ACME" [] = (.ok r0, [call0], true) := by
      simp only [acquire, hcfg, hgh, hllm]
    have hstore := processAndStore_fresh resizeOkId (fun img px => rfl) DB.empty FS.empty r0
      (empty_getBySymbol "ACME")
    have hmiss : fromCache DB.empty FS.empty "ACME" LogoSize.m
        = .error "logo not found" := rfl
    have hout : serviceGetLogo cfg DB.empty FS.empty [] "ACME" .m =
        (((processAndStore sqliteRepo resizeOkId DB.empty FS.empty r0).2.1).read "ACME" .m,
         (processAndStore sqliteRepo resizeOkId DB.empty FS.empty r0).1,
         (processAndStore sqliteRepo resizeOkId DB.empty FS.empty r0).2.1,
         [call0]) := by
      simp only [serviceGetLogo, hmiss, hacq]
      rw [hstore.1]
    rw [hout]
    refine ⟨hstore.2.1, hstore.2.2.1, ?_⟩
    have := hstore.2.2.2.1 .m (by decide)
    rw [this]


def srW : LogoSearchResult :=
  { logoURL := "https://x/l.png", companyName := "Acme", source := "llm",
    confidence := "high" }

theorem C7_fallback_ordering_witness :
    ((serviceGetLogo
        { repos := [], ghDownload := fun _ => .error "x",
          llm := some { clients := [{ find := fun _ => .ok srW,
                                      providerName := "anthropic", modelName := "m" }],
                        limiterWait := fun _ => .ok (),
                        download := fun _ => .ok [5] },
          resize := resizeOkId }
        DB.empty FS.empty [] "ACME" .m).2.1).statusOf "ACME" = some .processed ∧
    ((serviceGetLogo
        { repos := [], ghDownload := fun _ => .error "x",
          llm := some { clients := [{ find := fun _ => .ok srW,
                                      providerName := "anthropic", modelName := "m" }],
                        limiterWait := fun _ => .ok (),
                        download := fun _ => .ok [5] },
          resize := resizeOkId }
        DB.empty FS.empty [] "ACME" .m).2.1).sourceOf "ACME" = some "llm:anthropic" ∧
    (serviceGetLogo
        { repos := [], ghDownload := fun _ => .error "x",
          llm := some { clients := [{ find := fun _ => .ok srW,
                                      providerName := "anthropic", modelName := "m" }],
                        limiterWait := fun _ => .ok (),
                        download := fun _ => .ok [5] },
          resize := resizeOkId }
        DB.empty FS.empty [] "ACME" .m).1 = .ok [5] :=
  C7_fallback_ordering.2.2.2.2 "anthropic" "m" srW
    (fun _ => .ok [5]) (fun _ => .error "x") [5] rfl


/-! ## Claim C9: helper lemmas -/

theorem toNat_ofNat_small (n : Nat) (h : n < 55296) : (Char.ofNat n).toNat = n := by
  have hv : n.isValidChar := Or.inl h
  unfold Char.ofNat
  rw [dif_pos hv]
  rfl

theorem asciiUp_toNat_of_lower (c : Char) (h1 : 97 ≤ c.toNat) (h2 : c.toNat ≤ 122) :
    (asciiUp c).toNat = c.toNat - 32 := by
  unfold asciiUp
  rw [if_pos ⟨h1, h2⟩]
  exact toNat_ofNat_small _ (by omega)

theorem asciiUp_idem (c : Char) : asciiUp (asciiUp c) = asciiUp c := by
  by_cases h : 97 ≤ c.toNat ∧ c.toNat ≤ 122
  · have ht := asciiUp_toNat_of_lower c h.1 h.2
    unfold asciiUp
    rw [if_pos h, if_neg]
    rw [show (Char.ofNat (c.toNat - 32)) = asciiUp c from by unfold asciiUp; rw [if_pos h]]
    rw [ht]
    omega
  · unfold asciiUp
    rw [if_neg h, if_neg h]

theorem goToUpper_idem (s : String) : goToUpper (goToUpper s) = goToUpper s := by
  unfold goToUpper
  rw [List.map_map]
  have hfe : asciiUp ∘ asciiUp = asciiUp := funext asciiUp_idem
  rw [hfe]

theorem goToUpper_ne (s : String) (i : Nat) (hi : i < s.data.length)
    (h1 : 97 ≤ (s.data[i]).toNat) (h2 : (s.data[i]).toNat ≤ 122) :
    goToUpper s ≠ s := by
  intro h
  have hdata : s.data.map asciiUp = s.data := congrArg String.data h
  have h1q : (s.data.map asciiUp)[i]? = s.data[i]? := by rw [hdata]
  rw [List.getElem?_map, List.getElem?_eq_getElem hi] at h1q
  simp only [Option.map_some'] at h1q
  have hc : asciiUp (s.data[i]) = s.data[i] := Option.some.inj h1q
  have hn := congrArg Char.toNat hc
  rw [asciiUp_toNat_of_lower _ h1 h2] at hn
  omega

/-! ## Claim C9 -/

def srC9 : LogoSearchResult :=
  { logoURL := "https://l/a.png", companyName := "Aapl Co", source := "llm",
    confidence := "high" }

/-- C9 counterexample: the claim's universal reading fails on the LLM
acquisition path. LLMProvider.tryProvider never uppercases — the result
carries the caller-supplied symbol — so for the lowercase symbol "aapl"
acquired through an LLM backend the record is stored under "aapl" (not
"AAPL") and the final read under the caller casing returns the stored
bytes, contradicting "never returns the stored bytes for a non-uppercase
symbol". -/
theorem C9_counterexample :
    ((serviceGetLogo { repos := [], ghDownload := fun _ => .error "x", llm := some { clients := [{ find := fun _ => .ok srC9, providerName := "anthropic", modelName := "m" }], limiterWait := fun _ => .ok (), download := fun _ => .ok [5] }, resize := resizeOkId }
        DB.empty FS.empty [] "aapl" .m).2.1).statusOf "aapl" = some .processed ∧
    ((serviceGetLogo { repos := [], ghDownload := fun _ => .error "x", llm := some { clients := [{ find := fun _ => .ok srC9, providerName := "anthropic", modelName := "m" }], limiterWait := fun _ => .ok (), download := fun _ => .ok [5] }, resize := resizeOkId }
        DB.empty FS.empty [] "aapl" .m).2.1).statusOf (goToUpper "aapl") = none ∧
    (serviceGetLogo { repos := [], ghDownload := fun _ => .error "x", llm := some { clients := [{ find := fun _ => .ok srC9, providerName := "anthropic", modelName := "m" }], limiterWait := fun _ => .ok (), download := fun _ => .ok [5] }, resize := resizeOkId }
        DB.empty FS.empty [] "aapl" .m).1 = .ok [5] := by
  decide

/-- C9 (amended): the stored casing depends on the acquiring provider. The
repository-mirror provider uppercases the symbol before fetching, so a
mirror acquisition for a symbol containing a lowercase letter stores the
record and every blob under the uppercased symbol while the final read uses
the caller casing and misses; the handler's uppercased route returns the
bytes. The LLM provider never changes the casing: an LLM acquisition stores
the record and blobs under the caller-supplied symbol (no record appears
under the uppercased symbol) and the final read returns the stored
bytes. -/
theorem C9_case_sensitivity_amended (s : String) (i : Nat) (hi : i < s.data.length)
    (h1 : 97 ≤ (s.data[i]).toNat) (h2 : (s.data[i]).toNat ≤ 122)
    (r : String) (dl : Downloader) (blob : Blob) (sz : LogoSize)
    (hdl : dl (ghRawLogoURL r (goToUpper s)) = .ok blob)
    (p mdl : String) (sr : LogoSearchResult) (ldl ghdl : Downloader) (blob2 : Blob)
    (hldl : ldl sr.logoURL = .ok blob2) :
    ((serviceGetLogo { repos := [r], ghDownload := dl, llm := none, resize := resizeOkId }
        DB.empty FS.empty [] s sz).2.1).statusOf (goToUpper s) = some .processed ∧
    (∀ z, ((serviceGetLogo { repos := [r], ghDownload := dl, llm := none, resize := resizeOkId }
        DB.empty FS.empty [] s sz).2.2.1).read (goToUpper s) z = .ok blob) ∧
    (serviceGetLogo { repos := [r], ghDownload := dl, llm := none, resize := resizeOkId }
        DB.empty FS.empty [] s sz).1 = .error "logo file not found" ∧
    (serviceGetLogo { repos := [r], ghDownload := dl, llm := none, resize := resizeOkId }
        DB.empty FS.empty [] (handlerSymbol s) sz).1 = .ok blob ∧
    ((serviceGetLogo { repos := [], ghDownload := ghdl, llm := some { clients := [{ find := fun _ => .ok sr, providerName := p, modelName := mdl }], limiterWait := fun _ => .ok (), download := ldl }, resize := resizeOkId }
        DB.empty FS.empty [] s sz).2.1).statusOf s = some .processed ∧
    ((serviceGetLogo { repos := [], ghDownload := ghdl, llm := some { clients := [{ find := fun _ => .ok sr, providerName := p, modelName := mdl }], limiterWait := fun _ => .ok (), download := ldl }, resize := resizeOkId }
        DB.empty FS.empty [] s sz).2.1).statusOf (goToUpper s) = none ∧
    (serviceGetLogo { repos := [], ghDownload := ghdl, llm := some { clients := [{ find := fun _ => .ok sr, providerName := p, modelName := mdl }], limiterWait := fun _ => .ok (), download := ldl }, resize := resizeOkId }
        DB.empty FS.empty [] s sz).1 = .ok blob2 := by
  set cfg : ServiceCfg :=
    { repos := [r], ghDownload := dl, llm := none, resize := resizeOkId } with hcfg
  set client2 : LLMClientM :=
    { find := fun _ => .ok sr, providerName := p, modelName := mdl } with hclient2
  set cfg2 : ServiceCfg :=
    { repos := [], ghDownload := ghdl, llm := some { clients := [client2], limiterWait := fun _ => .ok (), download := ldl }, resize := resizeOkId } with hcfg2
  set r0 : LogoResult :=
    { symbol := goToUpper s, imageData := blob,
      source := "github:" ++ r, originalURL := ghRawLogoURL r (goToUpper s) } with hr0
  set r0b : LogoResult :=
    { symbol := s, companyName := sr.companyName, imageData := blob2,
      source := "llm:" ++ p, originalURL := sr.logoURL } with hr0b
  set call0 : LLMCall :=
    { symbol := s, provider := p, model := mdl,
      resultURL := some sr.logoURL, success := true } with hcall0
  have hmiss : fromCache DB.empty FS.empty s sz = .error "logo not found" := rfl
  have hmiss2 : fromCache DB.empty FS.empty (goToUpper s) sz
      = .error "logo not found" := rfl
  have hgh : ghGetLogo [r] dl s = .ok r0 := by
    simp only [ghGetLogo, ghGetLogoAux, hdl]
  have hacq : acquire cfg s [] = (.ok r0, [], false) := by
    simp only [acquire, hcfg, hgh]
  have hid : goToUpper (goToUpper s) = goToUpper s := goToUpper_idem s
  have hgh2 : ghGetLogo [r] dl (goToUpper s) = .ok r0 := by
    simp only [ghGetLogo, hid, ghGetLogoAux, hdl]
  have hacq2 : acquire cfg (goToUpper s) [] = (.ok r0, [], false) := by
    simp only [acquire, hcfg, hgh2]
  have hstore := processAndStore_fresh resizeOkId (fun img px => rfl) DB.empty FS.empty r0
    (empty_getBySymbol r0.symbol)
  have hout1 : serviceGetLogo cfg DB.empty FS.empty [] s sz =
      (((processAndStore sqliteRepo resizeOkId DB.empty FS.empty r0).2.1).read s sz,
       (processAndStore sqliteRepo resizeOkId DB.empty FS.empty r0).1,
       (processAndStore sqliteRepo resizeOkId DB.empty FS.empty r0).2.1, []) := by
    simp only [serviceGetLogo, hmiss, hacq]
    rw [hstore.1]
  have hout2 : serviceGetLogo cfg DB.empty FS.empty [] (handlerSymbol s) sz =
      (((processAndStore sqliteRepo resizeOkId DB.empty FS.empty r0).2.1).read
          (goToUpper s) sz,
       (processAndStore sqliteRepo resizeOkId DB.empty FS.empty r0).1,
       (processAndStore sqliteRepo resizeOkId DB.empty FS.empty r0).2.1, []) := by
    simp only [handlerSymbol, serviceGetLogo, hmiss2, hacq2]
    rw [hstore.1]
  have hneU : goToUpper s ≠ s := goToUpper_ne s i hi h1 h2
  have hne : s ≠ r0.symbol := Ne.symm hneU
  have hfind : client2.find s = .ok sr := rfl
  have htry : tryProvider ldl client2 s = (.ok r0b, call0) := by
    simp only [tryProvider, hfind, hldl]
  have hllm : llmGetLogo [client2] (fun _ => .ok ()) ldl s [] = (.ok r0b, [call0]) := by
    simp only [llmGetLogo, llmGetLogoAux, htry]
    rfl
  have hghe : ghGetLogo [] ghdl s
      = .error ("logo for " ++ goToUpper s ++ " not found in any GitHub repo") := rfl
  have hacqb : acquire cfg2 s [] = (.ok r0b, [call0], true) := by
    simp only [acquire, hcfg2, hghe, hllm]
  have hstoreb := processAndStore_fresh resizeOkId (fun img px => rfl) DB.empty FS.empty r0b
    (empty_getBySymbol r0b.symbol)
  have houtb : serviceGetLogo cfg2 DB.empty FS.empty [] s sz =
      (((processAndStore sqliteRepo resizeOkId DB.empty FS.empty r0b).2.1).read s sz,
       (processAndStore sqliteRepo resizeOkId DB.empty FS.empty r0b).1,
       (processAndStore sqliteRepo resizeOkId DB.empty FS.empty r0b).2.1, [call0]) := by
    simp only [serviceGetLogo, hmiss, hacqb]
    rw [hstoreb.1]
  refine ⟨?_, ?_, ?_, ?_, ?_, ?_, ?_⟩
  · rw [hout1]
    exact hstore.2.1
  · intro z
    rw [hout1]
    exact hstore.2.2.2.1 z (by cases z <;> decide)
  · rw [hout1]
    rw [hstore.2.2.2.2 s sz hne]
    rfl
  · rw [hout2]
    exact hstore.2.2.2.1 sz (by cases sz <;> decide)
  · rw [houtb]
    exact hstoreb.2.1
  · rw [houtb]
    rw [processAndStore_statusOf_ne resizeOkId DB.empty FS.empty r0b (goToUpper s) hneU]
    rfl
  · rw [houtb]
    exact hstoreb.2.2.2.1 sz (by cases sz <;> decide)

theorem C9_case_sensitivity_amended_witness :
    (serviceGetLogo { repos := ["o/r"], ghDownload := fun _ => .ok [9], llm := none, resize := resizeOkId }
        DB.empty FS.empty [] "aapl" .m).1 = .error "logo file not found" ∧
    (serviceGetLogo { repos := ["o/r"], ghDownload := fun _ => .ok [9], llm := none, resize := resizeOkId }
        DB.empty FS.empty [] (handlerSymbol "aapl") .m).1 = .ok [9] ∧
    ((serviceGetLogo { repos := [], ghDownload := fun _ => .error "x", llm := some { clients := [{ find := fun _ => .ok srC9, providerName := "anthropic", modelName := "m" }], limiterWait := fun _ => .ok (), download := fun _ => .ok [5] }, resize := resizeOkId }
        DB.empty FS.empty [] "aapl" .m).2.1).statusOf "aapl" = some .processed ∧
    (serviceGetLogo { repos := [], ghDownload := fun _ => .error "x", llm := some { clients := [{ find := fun _ => .ok srC9, providerName := "anthropic", modelName := "m" }], limiterWait := fun _ => .ok (), download := fun _ => .ok [5] }, resize := resizeOkId }
        DB.empty FS.empty [] "aapl" .m).1 = .ok [5] :=
  have h := C9_case_sensitivity_amended "aapl" 0 (by decide) (by decide) (by decide)
    "o/r" (fun _ => Except.ok [9]) [9] .m rfl "anthropic" "m" srC9
    (fun _ => Except.ok [5]) (fun _ => Except.error "x") [5] rfl
  ⟨h.2.2.1, h.2.2.2.1, h.2.2.2.2.1, h.2.2.2.2.2.2⟩

end LogoSvc
